import Mathlib

/-!
Verification of the AP cost-accounting engine of the dsa5-analyzer
repository.  The definitions below are a shallow embedding of
`src/character/analysis.rs` and `src/character/data.rs`: Rust `i32`
values become `Int`, fallible operations become `Option`/`Except`,
the `serde_json` attribute bags become a small JSON value type, and
`HashMap`s become association lists (a deterministic refinement whose
per-key contents agree with the source; all properties proved about
them are insensitive to entry order).
-/

namespace DSA5

/-- Minimal JSON value type covering what the item attribute bags use. -/
inductive Json where
  | str (s : String)
  | num (n : Int)
  | jbool (b : Bool)
  | obj (fields : List (String × Json))
  | null

/-- Field access on a JSON value (`serde_json::Value::get`). -/
def Json.getField : Json → String → Option Json
  | .obj fields, key => fields.lookup key
  | _, _ => none

/-- The flattened `ItemSystem.data` map of `data.rs`. -/
abbrev ItemSystem := List (String × Json)

/-- Embeds `ItemSystem::data.get(key).and_then(|v| v.get("value"))`. -/
def getValueInner (data : ItemSystem) (key : String) : Option Json :=
  (data.lookup key).bind (fun j => j.getField "value")

/-- Embeds `ItemSystem::get_ap_value` (strings and numbers only). -/
def get_ap_value (data : ItemSystem) : Option String :=
  match getValueInner data "APValue" with
  | some (.str s) => some s
  | some (.num n) => some (toString n)
  | _ => none

/-- Embeds `ItemSystem::get_value_as_string` (strings, numbers, booleans). -/
def get_value_as_string (data : ItemSystem) (key : String) : Option String :=
  match getValueInner data key with
  | some (.str s) => some s
  | some (.num n) => some (toString n)
  | some (.jbool b) => some (toString b)
  | _ => none

/-- Embeds `ItemSystem::get_talent_value`. -/
def get_talent_value (data : ItemSystem) : Option String :=
  get_value_as_string data "talentValue"

/-- Embeds `ItemSystem::get_st_f_value`. -/
def get_st_f_value (data : ItemSystem) : Option String :=
  get_value_as_string data "StF"

/-- Embeds `ItemSystem::get_step_value`. -/
def get_step_value (data : ItemSystem) : Option String :=
  get_value_as_string data "step"

/-- Embeds the `Item` struct of `data.rs` (the fields the engine reads). -/
structure Item where
  _id : String
  name : String
  item_type : String
  system : ItemSystem

/-- Embeds `CharacteristicValue` of `data.rs`. -/
structure CharacteristicValue where
  initial : Int
  species : Int
  modifier : Int
  advances : Int
deriving Repr, DecidableEq

/-- Embeds `CharacteristicValue::nominal_value` (initial + advances). -/
def CharacteristicValue.nominal_value (c : CharacteristicValue) : Int :=
  c.initial + c.advances

/-- Embeds `Characteristics` of `data.rs`. -/
structure Characteristics where
  mu : Option CharacteristicValue
  kl : Option CharacteristicValue
  in_ : Option CharacteristicValue
  ch : Option CharacteristicValue
  ff : Option CharacteristicValue
  ge : Option CharacteristicValue
  ko : Option CharacteristicValue
  kk : Option CharacteristicValue
deriving Repr, DecidableEq

/-- Embeds `WoundValue` of `data.rs`. -/
structure WoundValue where
  initial : Int
  value : Int
  advances : Int
  modifier : Int
  current : Int
  max : Int
deriving Repr, DecidableEq

/-- Embeds `AstralEnergyValue` of `data.rs`. -/
structure AstralEnergyValue where
  initial : Int
  value : Int
  advances : Int
  modifier : Int
  current : Int
  max : Int
  permanent_loss : Int
  rebuy : Int
deriving Repr, DecidableEq

/-- Embeds `KarmaEnergyValue` of `data.rs`. -/
structure KarmaEnergyValue where
  initial : Int
  value : Int
  advances : Int
  modifier : Int
  current : Int
  max : Int
  permanent_loss : Int
  rebuy : Int
deriving Repr, DecidableEq

/-- Embeds `StatusValues` of `data.rs`. -/
structure StatusValues where
  wounds : Option WoundValue
  astralenergy : Option AstralEnergyValue
  karmaenergy : Option KarmaEnergyValue
deriving Repr, DecidableEq

/-- Embeds `Experience` of `data.rs`. -/
structure Experience where
  total : Int
  spent : Int
deriving Repr, DecidableEq

/-- Embeds `Details` of `data.rs`. -/
structure Details where
  experience : Option Experience
deriving Repr, DecidableEq

/-- Embeds `CharacterSystem` of `data.rs`. -/
structure CharacterSystem where
  characteristics : Option Characteristics
  status : Option StatusValues
  details : Option Details
deriving Repr, DecidableEq

/-- Embeds the `Character` struct of `data.rs` (the fields the engine reads). -/
structure Character where
  name : String
  character_type : String
  items : List Item
  system : Option CharacterSystem

/-- Embeds `Character::get_ap_items`: all items exposing an AP value. -/
def get_ap_items (c : Character) : List Item :=
  c.items.filter (fun it => (get_ap_value it.system).isSome)

/-- Stable ascending sort by name, embedding the stable
`sort_by(|a, b| a.name.cmp(&b.name))` of `get_items_by_types`. -/
def sortByName (l : List Item) : List Item :=
  List.insertionSort (fun a b => a.name ≤ b.name) l

/-- Embeds `Character::get_items_by_types`: filter by type, sort by name. -/
def get_items_by_types (c : Character) (types : List String) : List Item :=
  sortByName (c.items.filter (fun it => types.contains it.item_type))

/-- Embeds `Character::get_skills`. -/
def get_skills (c : Character) : List Item := get_items_by_types c ["skill"]

/-- Embeds `Character::get_combat_skills`. -/
def get_combat_skills (c : Character) : List Item :=
  get_items_by_types c ["combatskill"]

/-- Embeds `Character::get_spells_and_rituals`. -/
def get_spells_and_rituals (c : Character) : List Item :=
  get_items_by_types c ["spell", "ritual"]

/-- Embeds `Character::get_magic_tricks`. -/
def get_magic_tricks (c : Character) : List Item :=
  get_items_by_types c ["magictrick"]

/-- Embeds `Character::get_liturgies_and_ceremonies`. -/
def get_liturgies_and_ceremonies (c : Character) : List Item :=
  get_items_by_types c ["liturgy", "ceremony"]

/-- Embeds `Character::get_blessings`. -/
def get_blessings (c : Character) : List Item :=
  get_items_by_types c ["blessing"]

/-! ### Integer parsing (Rust `str::parse::<i32>`) -/

/-- Numeric value of a digit string (caller checks the digit property). -/
def digitsVal (cs : List Char) : Nat :=
  cs.foldl (fun acc c => acc * 10 + (c.toNat - 48)) 0

/-- Parse a nonempty all-digit character list to its numeric value. -/
def parseDigits (cs : List Char) : Option Nat :=
  if cs.isEmpty then none
  else if cs.all (·.isDigit) then some (digitsVal cs) else none

/-- Embeds Rust `i32::from_str`: optional sign, decimal digits, i32 range. -/
def parseI32chars (cs : List Char) : Option Int :=
  match cs with
  | [] => none
  | c :: rest =>
    let signed : Bool × List Char :=
      if c = '-' then (true, rest)
      else if c = '+' then (false, rest)
      else (false, cs)
    match parseDigits signed.2 with
    | none => none
    | some n =>
      if signed.1 then
        if n ≤ 2 ^ 31 then some (-(n : Int)) else none
      else
        if n ≤ 2 ^ 31 - 1 then some (n : Int) else none

/-- Parse a string as an `i32` (Rust `s.parse::<i32>()`). -/
def parseI32 (s : String) : Option Int :=
  parseI32chars s.data

/-! ### The AP value parser (`parse_ap_value`) -/

/-- Embeds the `ApValueParseResult` enum of `analysis.rs`. -/
inductive ApValueParseResult where
  | singleValue (v : Int)
  | multipleValues (values : List Int)
  | parseError
deriving Repr, DecidableEq

/-- Split a character list on `';'` (Rust `str::split(';')` semantics:
the result always has one more part than there are semicolons). -/
def splitSemicolon : List Char → List (List Char)
  | [] => [[]]
  | c :: rest =>
    if c = ';' then [] :: splitSemicolon rest
    else
      match splitSemicolon rest with
      | [] => [[c]]
      | p :: ps => (c :: p) :: ps

/-- Whitespace predicate used by trimming (ASCII whitespace). -/
def isWS (c : Char) : Bool := c.isWhitespace

/-- Trim leading and trailing whitespace (Rust `str::trim`). -/
def trimChars (cs : List Char) : List Char :=
  ((cs.dropWhile isWS).reverse.dropWhile isWS).reverse

/-- Parse every part as an `i32`; all-or-nothing
(Rust `collect::<Result<Vec<i32>, _>>`). -/
def parseAll : List (List Char) → Option (List Int)
  | [] => some []
  | p :: ps =>
    match parseI32chars p, parseAll ps with
    | some v, some vs => some (v :: vs)
    | _, _ => none

/-- Embeds `ApCalculator::parse_ap_value`. -/
def parse_ap_value (s : String) : ApValueParseResult :=
  if s.data.contains ';' then
    match parseAll ((splitSemicolon s.data).map trimChars) with
    | some values =>
      if values.isEmpty then .parseError else .multipleValues values
    | none => .parseError
  else
    match parseI32chars s.data with
    | some v => .singleValue v
    | none => .parseError

/-! ### Item cost pipeline -/

/-- Embeds `ApCalculator::calculate_single_value_cost`. -/
def calculate_single_value_cost (value step : Int) : Int :=
  value * step

/-- Embeds `ApCalculator::calculate_multiple_values_cost`. -/
def calculate_multiple_values_cost (values : List Int) (step : Int) :
    Except String Int :=
  if (values.length : Int) < step then
    .error ("Step " ++ toString step ++ " exceeds available values (" ++
      toString values.length ++ ")")
  else if step < 1 then
    .error "Step must be at least 1"
  else
    .ok ((values.take step.toNat).sum)

/-- The step attribute of an item, parsed (before the default of 1). -/
def resolvedStepOpt (it : Item) : Option Int :=
  (get_step_value it.system).bind parseI32

/-- The resolved step of an item: parsed step, defaulting to 1. -/
def resolvedStep (it : Item) : Int :=
  (resolvedStepOpt it).getD 1

/-- Embeds `ApCalculator::calculate_item_ap_cost`. -/
def calculate_item_ap_cost (it : Item) : Int :=
  match get_ap_value it.system with
  | none => 0
  | some ap_value_str =>
    let step := resolvedStep it
    match parse_ap_value ap_value_str with
    | .singleValue value => calculate_single_value_cost value step
    | .multipleValues values =>
      match calculate_multiple_values_cost values step with
      | .ok v => v
      | .error _ => 0
    | .parseError => 0

/-- Join strings with a separator (Rust `[String]::join`). -/
def joinSep (sep : String) : List String → String
  | [] => ""
  | [x] => x
  | x :: xs => x ++ sep ++ joinSep sep xs

/-- Embeds the `calculation_explanation` match of `apply_special_rules`. -/
def calculation_explanation (raw : String) (step : Int) : String :=
  match parse_ap_value raw with
  | .singleValue value =>
    if step = 1 then toString value
    else toString value ++ " × " ++ toString step
  | .multipleValues values =>
    match calculate_multiple_values_cost values step with
    | .ok _ =>
      let step_values := (values.take step.toNat).map toString
      if step_values.length > 1 then "Sum: " ++ joinSep " + " step_values
      else (step_values.head?.getD "0")
    | .error error_msg => "ERROR: " ++ error_msg
  | .parseError => "Parse error"

/-! ### Progressive cost curves -/

/-- The loop body of `cost_above_12`: `current += m; total += current`,
iterated `n` times. -/
def cost_above_12_aux (m : Int) : Nat → Int → Int → Int
  | 0, _, total => total
  | n + 1, current, total =>
    cost_above_12_aux m n (current + m) (total + (current + m))

/-- Embeds `ApCalculator::cost_above_12`. -/
def cost_above_12 (above_12 stf_multiplier : Int) : Int :=
  cost_above_12_aux stf_multiplier above_12.toNat stf_multiplier 0

/-- Embeds `ApCalculator::talent_value_to_ap_cost` (generic talent curve). -/
def talent_value_to_ap_cost (talent_value stf_multiplier : Int) : Int :=
  if talent_value < 0 then 0
  else if talent_value ≤ 12 then talent_value * stf_multiplier
  else 12 * stf_multiplier + cost_above_12 (talent_value - 12) stf_multiplier

/-- Embeds `ApCalculator::combat_skill_talent_value_to_ap_cost`. -/
def combat_skill_talent_value_to_ap_cost (talent_value stf_multiplier : Int) :
    Int :=
  if talent_value ≤ 6 then 0
  else
    talent_value_to_ap_cost talent_value stf_multiplier -
      talent_value_to_ap_cost 6 stf_multiplier

/-- Embeds `ApCalculator::learned_ability_talent_value_to_ap_cost`. -/
def learned_ability_talent_value_to_ap_cost (talent_value stf_multiplier : Int) :
    Int :=
  stf_multiplier + talent_value_to_ap_cost talent_value stf_multiplier

/-- Uppercase all characters (approximating Rust `str::to_uppercase`
on the ASCII grade letters the engine matches on). -/
def toUpperChars (cs : List Char) : List Char :=
  cs.map Char.toUpper

/-- Embeds `ApCalculator::stf_to_multiplier`: A→1, B→2, C→3, D→4. -/
def stf_to_multiplier (stf : String) : Option Int :=
  match toUpperChars stf.data with
  | ['A'] => some 1
  | ['B'] => some 2
  | ['C'] => some 3
  | ['D'] => some 4
  | _ => none

/-- Embeds the `for i in 1..=above_14` accumulation of
`characteristic_to_ap_cost`. -/
def cost_above_14_loop (above : Int) : Int :=
  (List.range above.toNat).foldl
    (fun (acc : Int) (j : Nat) => acc + (15 + ((j : Int) + 1) * 15)) 0

/-- Embeds `ApCalculator::characteristic_to_ap_cost`. -/
def characteristic_to_ap_cost (value : Int) : Except String Int :=
  if value < 8 then .error "Value must be greater or equal 8"
  else if value ≤ 14 then .ok ((value - 8) * 15)
  else .ok (6 * 15 + cost_above_14_loop (value - 14))

/-! ### Duplicate resolver and priced item list (`apply_special_rules`) -/

/-- Embeds the `ApItem` struct of `analysis.rs`. -/
structure ApItem where
  name : String
  item_type : String
  raw_value : String
  step : Option Int
  calculation : String
  ap_cost : Int
  was_excluded : Bool
deriving Repr, DecidableEq

/-- The configured "highest step only" base-name set of `apply_special_rules`. -/
def highest_step_only_items : List String :=
  ["Prinzipientreue", "Verpflichtungen"]

/-- Embeds `ApCalculator::extract_base_name`: the part before the first
opening parenthesis, trimmed. -/
def extract_base_name (full_name : String) : String :=
  if full_name.data.contains '(' then
    String.mk (trimChars (full_name.data.takeWhile (fun c => c ≠ '(')))
  else full_name

/-- The `ApItem` built for one source item in `apply_special_rules`. -/
def mk_ap_item (it : Item) : ApItem :=
  { name := it.name
    item_type := it.item_type
    raw_value := (get_ap_value it.system).getD ""
    step := resolvedStepOpt it
    calculation := calculation_explanation ((get_ap_value it.system).getD "")
      (resolvedStep it)
    ap_cost := calculate_item_ap_cost it
    was_excluded := false }

/-- An item's step with the default of 1 (`step.unwrap_or(1)`). -/
def stepOr1 (o : Option Int) : Int := o.getD 1

/-- Set the `was_excluded` flag. -/
def markExcluded (a : ApItem) : ApItem := { a with was_excluded := true }

/-- Clear the `was_excluded` flag. -/
def clearExcl (a : ApItem) : ApItem := { a with was_excluded := false }

/-- Append an item to the duplicate group of its base name
(`duplicate_groups.entry(base).or_insert_with(Vec::new).push(item)`,
with the `HashMap` refined to an insertion-ordered association list). -/
def add_to_group (gs : List (String × List ApItem)) (key : String)
    (x : ApItem) : List (String × List ApItem) :=
  match gs with
  | [] => [(key, [x])]
  | (k, xs) :: rest =>
    if k = key then (k, xs ++ [x]) :: rest
    else (k, xs) :: add_to_group rest key x

/-- First pass of `apply_special_rules`: route every AP item either into
the plain result list or into its duplicate group. -/
def buildAux : List Item → List ApItem → List (String × List ApItem) →
    List ApItem × List (String × List ApItem)
  | [], res, gs => (res, gs)
  | it :: rest, res, gs =>
    let a := mk_ap_item it
    let b := extract_base_name it.name
    if b ∈ highest_step_only_items then buildAux rest res (add_to_group gs b a)
    else buildAux rest (res ++ [a]) gs

/-- The descending-step comparison used to sort a duplicate group
(`step_b.cmp(&step_a)`). -/
def stepRel (a b : ApItem) : Prop := stepOr1 b.step ≤ stepOr1 a.step

instance : DecidableRel stepRel :=
  fun a b => inferInstanceAs (Decidable (stepOr1 b.step ≤ stepOr1 a.step))

instance : IsTotal ApItem stepRel :=
  ⟨fun a b => le_total (stepOr1 b.step) (stepOr1 a.step)⟩

instance : IsTrans ApItem stepRel :=
  ⟨fun _ _ _ h1 h2 => le_trans h2 h1⟩

/-- Stable sort of a duplicate group by step, descending (embedding the
stable `group.sort_by(|a, b| step_b.cmp(&step_a))`). -/
def sortByStepDesc (g : List ApItem) : List ApItem :=
  List.insertionSort stepRel g

/-- Second pass of `apply_special_rules` applied to one duplicate group:
a single instance is used normally, otherwise the highest-step instance
is kept and all others are flagged excluded. -/
def group_output (g : List ApItem) : List ApItem :=
  match g with
  | [x] => [x]
  | _ =>
    match sortByStepDesc g with
    | [] => []
    | h :: t => h :: t.map markExcluded

/-- Fold the duplicate groups into the result list. -/
def process_groups (res : List ApItem) :
    List (String × List ApItem) → List ApItem
  | [] => res
  | (_, g) :: rest => process_groups (res ++ group_output g) rest

/-- Embeds `ApCalculator::apply_special_rules`. -/
def apply_special_rules (c : Character) : List ApItem :=
  let rg := buildAux (get_ap_items c) [] []
  process_groups rg.1 rg.2

/-! ### Category calculators and the aggregator -/

/-- Embeds `ApCalculator::calculate_skills_ap`. -/
def calculate_skills_ap (c : Character) : Int :=
  ((get_skills c).filterMap (fun sk =>
    ((get_talent_value sk.system).bind parseI32).bind (fun tv =>
      ((get_st_f_value sk.system).bind stf_to_multiplier).map (fun m =>
        talent_value_to_ap_cost tv m)))).sum

/-- Embeds `ApCalculator::calculate_combat_skills_ap`. -/
def calculate_combat_skills_ap (c : Character) : Int :=
  ((get_combat_skills c).filterMap (fun sk =>
    ((get_talent_value sk.system).bind parseI32).bind (fun tv =>
      ((get_st_f_value sk.system).bind stf_to_multiplier).map (fun m =>
        combat_skill_talent_value_to_ap_cost tv m)))).sum

/-- Embeds `ApCalculator::calculate_learned_abilities_ap`. -/
def calculate_learned_abilities_ap (items : List Item) : Int :=
  (items.filterMap (fun it =>
    ((get_talent_value it.system).bind parseI32).bind (fun tv =>
      ((get_st_f_value it.system).bind stf_to_multiplier).map (fun m =>
        learned_ability_talent_value_to_ap_cost tv m)))).sum

/-- Embeds `ApCalculator::calculate_spells_and_rituals_ap`. -/
def calculate_spells_and_rituals_ap (c : Character) : Int :=
  calculate_learned_abilities_ap (get_spells_and_rituals c)

/-- Embeds `ApCalculator::calculate_liturgies_and_ceremonies_ap`. -/
def calculate_liturgies_and_ceremonies_ap (c : Character) : Int :=
  calculate_learned_abilities_ap (get_liturgies_and_ceremonies c)

/-- Embeds `ApCalculator::calculate_magic_tricks_ap` (1 AP per item). -/
def calculate_magic_tricks_ap (c : Character) : Int :=
  (get_magic_tricks c).length

/-- Embeds `ApCalculator::calculate_blessings_ap` (1 AP per item). -/
def calculate_blessings_ap (c : Character) : Int :=
  (get_blessings c).length

/-- Embeds `ApCalculator::calculate_lep_ap`. -/
def calculate_lep_ap (c : Character) : Int :=
  match c.system with
  | some sys =>
    match sys.status with
    | some st =>
      match st.wounds with
      | some w =>
        if 0 < w.advances then talent_value_to_ap_cost w.advances 4 else 0
      | none => 0
    | none => 0
  | none => 0

/-- Embeds `ApCalculator::calculate_asp_ap`. -/
def calculate_asp_ap (c : Character) : Int :=
  match c.system with
  | some sys =>
    match sys.status with
    | some st =>
      match st.astralenergy with
      | some ae =>
        (if 0 < ae.advances then talent_value_to_ap_cost ae.advances 4 else 0) +
          (if 0 < ae.rebuy then ae.rebuy * 2 else 0)
      | none => 0
    | none => 0
  | none => 0

/-- Embeds `ApCalculator::calculate_kap_ap`. -/
def calculate_kap_ap (c : Character) : Int :=
  match c.system with
  | some sys =>
    match sys.status with
    | some st =>
      match st.karmaenergy with
      | some ke =>
        (if 0 < ke.advances then talent_value_to_ap_cost ke.advances 4 else 0) +
          (if 0 < ke.rebuy then ke.rebuy * 2 else 0)
      | none => 0
    | none => 0
  | none => 0

/-- Embeds `ApCalculator::calculate_energy_values_ap`. -/
def calculate_energy_values_ap (c : Character) : Int :=
  calculate_lep_ap c + calculate_asp_ap c + calculate_kap_ap c

/-- The contribution of one optional characteristic to
`calculate_characteristics_ap` (range errors are silently skipped). -/
def char_cost_opt (co : Option CharacteristicValue) : Int :=
  match co with
  | some cv =>
    match characteristic_to_ap_cost cv.nominal_value with
    | .ok cost => cost
    | .error _ => 0
  | none => 0

/-- Embeds `ApCalculator::calculate_characteristics_ap`. -/
def calculate_characteristics_ap (c : Character) : Int :=
  match c.system with
  | some sys =>
    match sys.characteristics with
    | some chs =>
      char_cost_opt chs.mu + char_cost_opt chs.kl + char_cost_opt chs.in_ +
        char_cost_opt chs.ch + char_cost_opt chs.ff + char_cost_opt chs.ge +
        char_cost_opt chs.ko + char_cost_opt chs.kk
    | none => 0
  | none => 0

/-- The non-excluded item cost sum of `calculate_total_spent_ap`. -/
def items_total (c : Character) : Int :=
  (((apply_special_rules c).filter (fun a => !a.was_excluded)).map
    (fun a => a.ap_cost)).sum

/-- Embeds `ApCalculator::calculate_total_spent_ap`. -/
def calculate_total_spent_ap (c : Character) : Int :=
  items_total c + calculate_skills_ap c + calculate_combat_skills_ap c +
    calculate_spells_and_rituals_ap c + calculate_magic_tricks_ap c +
    calculate_liturgies_and_ceremonies_ap c + calculate_blessings_ap c +
    calculate_characteristics_ap c + calculate_energy_values_ap c

/-! ### The category map (`get_ap_by_category`), with the `HashMap`
refined to an association list -/

/-- `*categories.entry(k).or_insert(0) += v`. -/
def mapAdd (m : List (String × Int)) (k : String) (v : Int) :
    List (String × Int) :=
  match m with
  | [] => [(k, v)]
  | (k', v') :: rest =>
    if k' = k then (k', v' + v) :: rest else (k', v') :: mapAdd rest k v

/-- `categories.insert(k, v)` (replace or append). -/
def mapInsert (m : List (String × Int)) (k : String) (v : Int) :
    List (String × Int) :=
  match m with
  | [] => [(k, v)]
  | (k', v') :: rest =>
    if k' = k then (k', v) :: rest else (k', v') :: mapInsert rest k v

/-- The guarded insert `if v > 0 { categories.insert(k, v) }`. -/
def condInsert (m : List (String × Int)) (k : String) (v : Int) :
    List (String × Int) :=
  if 0 < v then mapInsert m k v else m

/-- The per-item accumulation loop of `get_ap_by_category`. -/
def itemCategoryFold (items : List ApItem) : List (String × Int) :=
  items.foldl
    (fun m a => if a.ap_cost ≠ 0 then mapAdd m a.item_type a.ap_cost else m) []

/-- Embeds `ApCalculator::get_ap_by_category`. -/
def get_ap_by_category (c : Character) : List (String × Int) :=
  let m0 := itemCategoryFold
    ((apply_special_rules c).filter (fun a => !a.was_excluded))
  let m1 := condInsert m0 "Skills" (calculate_skills_ap c)
  let m2 := condInsert m1 "Combat Skills" (calculate_combat_skills_ap c)
  let m3 := condInsert m2 "Spells/Rituals" (calculate_spells_and_rituals_ap c)
  let m4 := condInsert m3 "Magic Tricks" (calculate_magic_tricks_ap c)
  let m5 := condInsert m4 "Liturgies/Ceremonies"
    (calculate_liturgies_and_ceremonies_ap c)
  let m6 := condInsert m5 "Blessings" (calculate_blessings_ap c)
  let m7 := condInsert m6 "Energies (LeP/AsP/KaP)"
    (calculate_energy_values_ap c)
  condInsert m7 "Characteristics" (calculate_characteristics_ap c)

/-- Sum of all values stored in a category map. -/
def mapSum (m : List (String × Int)) : Int :=
  (m.map (fun p => p.2)).sum

/-- The keys of a category map. -/
def mapKeys (m : List (String × Int)) : List String :=
  m.map (fun p => p.1)

/-! ## Helper lemmas about the progressive curves -/

/-- Closed form of the `cost_above_12` accumulation loop. -/
lemma cost_above_12_aux_eq (m : Int) :
    ∀ (n : Nat) (cur t : Int),
      cost_above_12_aux m n cur t =
        t + ∑ k ∈ Finset.range n, (cur + ((k : Int) + 1) * m) := by
  intro n
  induction n with
  | zero => intro cur t; simp [cost_above_12_aux]
  | succ n ih =>
    intro cur t
    rw [cost_above_12_aux, ih, Finset.sum_range_succ']
    have h : ∀ k ∈ Finset.range n,
        cur + m + ((k : Int) + 1) * m = cur + (((k + 1 : ℕ) : Int) + 1) * m := by
      intro k _
      push_cast
      ring
    rw [Finset.sum_congr rfl h]
    push_cast
    ring

/-- Reindex a sum over `Icc 1 n` as a sum over `range n`. -/
lemma sum_Icc_one_eq_sum_range (g : ℕ → Int) :
    ∀ n : ℕ, ∑ k ∈ Finset.Icc 1 n, g k = ∑ k ∈ Finset.range n, g (k + 1) := by
  intro n
  induction n with
  | zero => simp
  | succ n ih =>
    rw [Finset.sum_Icc_succ_top (by omega), ih, Finset.sum_range_succ]

/-- `cost_above_12` is the sum of the marginal costs `m * (k + 1)`. -/
lemma cost_above_12_eq_sum (a m : Int) :
    cost_above_12 a m = ∑ k ∈ Finset.Icc 1 a.toNat, m * ((k : Int) + 1) := by
  rw [cost_above_12, cost_above_12_aux_eq,
    sum_Icc_one_eq_sum_range (fun k => m * ((k : Int) + 1)) a.toNat, zero_add]
  apply Finset.sum_congr rfl
  intro k _
  push_cast
  ring

/-- Closed form of a left fold of additions over `List.range`. -/
lemma range_foldl_add (f : ℕ → Int) :
    ∀ (n : ℕ) (a : Int),
      (List.range n).foldl (fun acc j => acc + f j) a =
        a + ∑ j ∈ Finset.range n, f j := by
  intro n
  induction n with
  | zero => intro a; simp
  | succ n ih =>
    intro a
    rw [List.range_succ, List.foldl_append, ih, Finset.sum_range_succ]
    simp [add_assoc]

/-- The characteristic loop equals the claimed `Icc` sum. -/
lemma cost_above_14_loop_eq_sum (a : Int) :
    cost_above_14_loop a =
      ∑ i ∈ Finset.Icc 1 a.toNat, (15 + (i : Int) * 15) := by
  rw [cost_above_14_loop,
    range_foldl_add (fun j => 15 + ((j : Int) + 1) * 15) a.toNat, zero_add,
    sum_Icc_one_eq_sum_range (fun i => 15 + (i : Int) * 15) a.toNat]
  apply Finset.sum_congr rfl
  intro k _
  push_cast
  ring

/-! ## Claim C1 -/

/-- C1: the generic talent curve charges `v * m` for `0 ≤ v ≤ 12`, adds the
progressive marginal costs `m * (k + 1)` for every point above 12, and
yields 0 for negative values; in particular the curve at multiplier 1
gives 12, 14, 17 for values 12, 13, 14. -/
theorem talent_curve_spec (v m : Int) :
    (0 ≤ v → v ≤ 12 → talent_value_to_ap_cost v m = v * m) ∧
    (12 < v → talent_value_to_ap_cost v m =
      12 * m + ∑ k ∈ Finset.Icc 1 (v - 12).toNat, m * ((k : Int) + 1)) ∧
    (v < 0 → talent_value_to_ap_cost v m = 0) ∧
    talent_value_to_ap_cost 12 1 = 12 ∧
    talent_value_to_ap_cost 13 1 = 14 ∧
    talent_value_to_ap_cost 14 1 = 17 := by
  refine ⟨?_, ?_, ?_, by decide, by decide, by decide⟩
  · intro h0 h12
    rw [talent_value_to_ap_cost, if_neg (by omega), if_pos h12]
  · intro h
    rw [talent_value_to_ap_cost, if_neg (by omega), if_neg (by omega),
      cost_above_12_eq_sum]
  · intro h
    rw [talent_value_to_ap_cost, if_pos h]

/-- C1 witness: the theorem instantiated at value 13, multiplier 1. -/
theorem talent_curve_spec_witness :
    talent_value_to_ap_cost 13 1 =
      12 * 1 + ∑ k ∈ Finset.Icc 1 (13 - 12 : Int).toNat, 1 * ((k : Int) + 1) :=
  (talent_curve_spec 13 1).2.1 (by decide)

/-! ## Claim C2 -/

/-- C2: the characteristic cost function errors below 8, charges
`(v - 8) * 15` on `8..14`, and above 14 adds the increments `15 + i * 15`;
in particular 10 ↦ 30, 15 ↦ 120 and 7 is a range error. -/
theorem characteristic_curve_spec (v : Int) :
    (v < 8 → characteristic_to_ap_cost v =
      .error "Value must be greater or equal 8") ∧
    (8 ≤ v → v ≤ 14 → characteristic_to_ap_cost v = .ok ((v - 8) * 15)) ∧
    (14 < v → characteristic_to_ap_cost v =
      .ok (6 * 15 + ∑ i ∈ Finset.Icc 1 (v - 14).toNat, (15 + (i : Int) * 15))) ∧
    characteristic_to_ap_cost 10 = .ok 30 ∧
    characteristic_to_ap_cost 15 = .ok 120 ∧
    characteristic_to_ap_cost 7 = .error "Value must be greater or equal 8" := by
  refine ⟨?_, ?_, ?_, by rfl, by rfl, by rfl⟩
  · intro h
    rw [characteristic_to_ap_cost, if_pos h]
  · intro h8 h14
    rw [characteristic_to_ap_cost, if_neg (by omega), if_pos h14]
  · intro h
    rw [characteristic_to_ap_cost, if_neg (by omega), if_neg (by omega),
      cost_above_14_loop_eq_sum]

/-- C2 witness: the theorem instantiated at nominal value 15. -/
theorem characteristic_curve_spec_witness :
    characteristic_to_ap_cost 15 =
      .ok (6 * 15 + ∑ i ∈ Finset.Icc 1 (15 - 14 : Int).toNat, (15 + (i : Int) * 15)) :=
  (characteristic_curve_spec 15).2.2.1 (by decide)

/-! ## Claim C6 -/

/-- C6: the combat-skill curve is the generic curve minus its value at the
free threshold 6, clamped to 0 for values at or below 6; in particular it
is 0 at value 6 for every multiplier and 2 at value 8, multiplier 1. -/
theorem combat_skill_curve_spec (v m : Int) :
    (v ≤ 6 → combat_skill_talent_value_to_ap_cost v m = 0) ∧
    (6 < v → combat_skill_talent_value_to_ap_cost v m =
      talent_value_to_ap_cost v m - talent_value_to_ap_cost 6 m) ∧
    combat_skill_talent_value_to_ap_cost 6 m = 0 ∧
    combat_skill_talent_value_to_ap_cost 8 1 = 2 := by
  refine ⟨?_, ?_, ?_, by decide⟩
  · intro h
    rw [combat_skill_talent_value_to_ap_cost, if_pos h]
  · intro h
    rw [combat_skill_talent_value_to_ap_cost, if_neg (by omega)]
  · rw [combat_skill_talent_value_to_ap_cost, if_pos (by omega)]

/-- C6 witness: the theorem instantiated at value 8, multiplier 1. -/
theorem combat_skill_curve_spec_witness :
    combat_skill_talent_value_to_ap_cost 8 1 =
      talent_value_to_ap_cost 8 1 - talent_value_to_ap_cost 6 1 :=
  (combat_skill_curve_spec 8 1).2.1 (by decide)

/-! ## Claim C7 -/

/-- Sorting by name does not change the number of items. -/
lemma get_items_by_types_length (c : Character) (types : List String) :
    (get_items_by_types c types).length =
      (c.items.filter (fun it => types.contains it.item_type)).length := by
  rw [get_items_by_types, sortByName]
  exact (List.perm_insertionSort _ _).length_eq

/-- Filtering on membership in a one-element type list is filtering on
equality with that type. -/
lemma filter_contains_singleton (l : List Item) (ty : String) :
    (l.filter (fun it => ([ty] : List String).contains it.item_type)).length =
      (l.filter (fun it => it.item_type == ty)).length := by
  congr 1
  apply List.filter_congr
  intro x _
  cases hxy : x.item_type == ty <;> simp [List.contains, List.elem, hxy]

/-- C7: the learned-ability curve is the flat learning cost `m` plus the
generic curve, so it is 1 at value 0, multiplier 1; and the magic-tricks
and blessings category sums are exactly one AP per owned item of that
type, with no talent-value scaling. -/
theorem learned_ability_spec :
    (∀ v m : Int, learned_ability_talent_value_to_ap_cost v m =
      m + talent_value_to_ap_cost v m) ∧
    learned_ability_talent_value_to_ap_cost 0 1 = 1 ∧
    (∀ c : Character,
      calculate_magic_tricks_ap c =
        ((c.items.filter (fun it => it.item_type == "magictrick")).length : Int) ∧
      calculate_blessings_ap c =
        ((c.items.filter (fun it => it.item_type == "blessing")).length : Int)) := by
  refine ⟨fun v m => rfl, by decide, fun c => ⟨?_, ?_⟩⟩
  · rw [calculate_magic_tricks_ap, get_magic_tricks, get_items_by_types_length,
      filter_contains_singleton]
  · rw [calculate_blessings_ap, get_blessings, get_items_by_types_length,
      filter_contains_singleton]

/-! ## Claim C5 -/

/-- C5: the AP value parser returns `SingleValue n` on semicolon-free
input exactly when the whole string parses as the integer `n`, returns
`MultipleValues` on semicolon-bearing input exactly when every
split-and-trimmed part parses, and returns `ParseError` in every other
case; it never returns a partial result. -/
theorem parse_ap_value_spec (s : String) :
    (s.data.contains ';' = false →
      (∀ n : Int, parse_ap_value s = .singleValue n ↔ parseI32 s = some n) ∧
      (parse_ap_value s = .parseError ↔ parseI32 s = none) ∧
      ∀ l, parse_ap_value s ≠ .multipleValues l) ∧
    (s.data.contains ';' = true →
      (∀ l, parse_ap_value s = .multipleValues l ↔
        (parseAll ((splitSemicolon s.data).map trimChars) = some l ∧ l ≠ [])) ∧
      (parse_ap_value s = .parseError ↔
        (parseAll ((splitSemicolon s.data).map trimChars) = none ∨
          parseAll ((splitSemicolon s.data).map trimChars) = some [])) ∧
      ∀ n, parse_ap_value s ≠ .singleValue n) := by
  constructor
  · intro h
    have h' : ';' ∉ s.data := by simpa using h
    cases hp : parseI32chars s.data with
    | none =>
      have he : parse_ap_value s = .parseError := by
        simp [parse_ap_value, h', hp]
      exact ⟨fun n => by simp [he, parseI32, hp], by simp [he, parseI32, hp],
        fun l => by simp [he]⟩
    | some v =>
      have he : parse_ap_value s = .singleValue v := by
        simp [parse_ap_value, h', hp]
      refine ⟨fun n => ?_, by simp [he, parseI32, hp], fun l => by simp [he]⟩
      rw [he, parseI32, hp]
      constructor
      · intro heq
        cases heq
        rfl
      · intro heq
        cases heq
        rfl
  · intro h
    have h' : ';' ∈ s.data := by simpa using h
    cases hp : parseAll ((splitSemicolon s.data).map trimChars) with
    | none =>
      have he : parse_ap_value s = .parseError := by
        simp [parse_ap_value, h', hp]
      exact ⟨fun l => by simp [he, hp], by simp [he, hp], fun n => by simp [he]⟩
    | some values =>
      cases values with
      | nil =>
        have he : parse_ap_value s = .parseError := by
          simp [parse_ap_value, h', hp]
        exact ⟨fun l => by simp [he, hp], by simp [he, hp],
          fun n => by simp [he]⟩
      | cons a as =>
        have he : parse_ap_value s = .multipleValues (a :: as) := by
          simp [parse_ap_value, h', hp]
        refine ⟨fun l => ?_, by simp [he, hp], fun n => by simp [he]⟩
        rw [he]
        constructor
        · intro heq
          cases heq
          exact ⟨rfl, by simp⟩
        · rintro ⟨hpl, _⟩
          cases hpl
          rfl

/-! ## Concrete fixtures used by witnesses and counterexamples -/

/-- A `system` entry holding a raw AP value string. -/
def apEntry (s : String) : String × Json :=
  ("APValue", Json.obj [("value", Json.str s)])

/-- A `system` entry holding a step string. -/
def stepEntry (s : String) : String × Json :=
  ("step", Json.obj [("value", Json.str s)])

/-- A `system` entry holding a talent value string. -/
def talentEntry (s : String) : String × Json :=
  ("talentValue", Json.obj [("value", Json.str s)])

/-- A `system` entry holding a proficiency grade string. -/
def stfEntry (s : String) : String × Json :=
  ("StF", Json.obj [("value", Json.str s)])

/-- Build an item from a name, a type and a system bag. -/
def mkItem (nm ty : String) (sysd : ItemSystem) : Item :=
  { _id := "id", name := nm, item_type := ty, system := sysd }

/-- An item with a multi-valued AP cost and step 2. -/
def itemMulti : Item :=
  mkItem "Verbesserte Regeneration" "specialability" [apEntry "3;5;8", stepEntry "2"]

/-- A character owning a single item with a negative AP value. -/
def charNegItem : Character :=
  { name := "neg", character_type := "character",
    items := [mkItem "Schulden" "disadvantage" [apEntry "-5"]],
    system := none }

/-- A character whose two same-type item costs cancel to zero. -/
def charCancel : Character :=
  { name := "cancel", character_type := "character",
    items := [mkItem "A" "advantage" [apEntry "5"],
      mkItem "B" "advantage" [apEntry "-5"]],
    system := none }

/-- A character owning an item whose `item_type` collides with the
reserved category label "Skills". -/
def charCollide : Character :=
  { name := "collide", character_type := "character",
    items := [mkItem "Odd" "Skills" [apEntry "5"],
      mkItem "Schwimmen" "skill" [talentEntry "1", stfEntry "A"]],
    system := none }

/-- A well-behaved character: one advantage, one skill, no collisions. -/
def charPlain : Character :=
  { name := "plain", character_type := "character",
    items := [mkItem "Beidhändig" "advantage" [apEntry "15"],
      mkItem "Schwimmen" "skill" [talentEntry "4", stfEntry "B"]],
    system := none }

/-- A character owning two duplicate-group items with steps 1 and 3. -/
def charDup : Character :=
  { name := "dup", character_type := "character",
    items := [mkItem "Prinzipientreue (A)" "disadvantage" [apEntry "5", stepEntry "1"],
      mkItem "Prinzipientreue (B)" "disadvantage" [apEntry "5", stepEntry "3"]],
    system := none }

/-- C5 witness: the parser instantiated on the semicolon input "3;5;8". -/
theorem parse_ap_value_spec_witness :
    parse_ap_value "3;5;8" = .multipleValues [3, 5, 8] :=
  (((parse_ap_value_spec "3;5;8").2 (by decide)).1 [3, 5, 8]).mpr
    ⟨by decide, by decide⟩

/-! ## Claim C3 -/

/-- C3: in the item cost pipeline the step defaults to 1 when the step
attribute is missing or unparsable; an AP value parsed as
`MultipleValues l` costs the sum of the first `step` entries of `l` in
original order, and costs 0 with an "ERROR: " annotation in the trace
whenever `step < 1` or `step` exceeds the length of `l`; a `ParseError`
AP value costs 0. -/
theorem item_cost_pipeline_spec (it : Item) :
    ((get_step_value it.system = none ∨
      ∃ s, get_step_value it.system = some s ∧ parseI32 s = none) →
      resolvedStep it = 1) ∧
    (∀ raw, get_ap_value it.system = some raw →
      (∀ l, parse_ap_value raw = .multipleValues l →
        (1 ≤ resolvedStep it → resolvedStep it ≤ (l.length : Int) →
          calculate_item_ap_cost it = (l.take (resolvedStep it).toNat).sum) ∧
        ((resolvedStep it < 1 ∨ (l.length : Int) < resolvedStep it) →
          calculate_item_ap_cost it = 0 ∧
          ∃ msg, calculation_explanation raw (resolvedStep it) =
            "ERROR: " ++ msg)) ∧
      (parse_ap_value raw = .parseError → calculate_item_ap_cost it = 0)) := by
  constructor
  · intro h
    rcases h with h | ⟨s, hs, hp⟩
    · simp [resolvedStep, resolvedStepOpt, h]
    · simp [resolvedStep, resolvedStepOpt, hs, hp]
  · intro raw hraw
    constructor
    · intro l hl
      constructor
      · intro h1 hlen
        have hc : calculate_multiple_values_cost l (resolvedStep it) =
            .ok ((l.take (resolvedStep it).toNat).sum) := by
          rw [calculate_multiple_values_cost, if_neg (by omega), if_neg (by omega)]
        simp [calculate_item_ap_cost, hraw, hl, hc]
      · intro herr
        have hc : ∃ msg, calculate_multiple_values_cost l (resolvedStep it) =
            .error msg := by
          rcases herr with h | h
          · by_cases hlen : (l.length : Int) < resolvedStep it
            · exact ⟨_, by rw [calculate_multiple_values_cost, if_pos hlen]⟩
            · exact ⟨_, by
                rw [calculate_multiple_values_cost, if_neg hlen, if_pos h]⟩
          · exact ⟨_, by rw [calculate_multiple_values_cost, if_pos h]⟩
        rcases hc with ⟨msg, hc⟩
        refine ⟨by simp [calculate_item_ap_cost, hraw, hl, hc], msg, ?_⟩
        simp [calculation_explanation, hl, hc]
    · intro hp
      simp [calculate_item_ap_cost, hraw, hp]

/-- C3 witness: the pipeline instantiated on an item with AP value
"3;5;8" and step 2, costing 3 + 5. -/
theorem item_cost_pipeline_spec_witness :
    calculate_item_ap_cost itemMulti =
      (([3, 5, 8] : List Int).take (resolvedStep itemMulti).toNat).sum :=
  ((((item_cost_pipeline_spec itemMulti).2 "3;5;8" (by rfl)).1
    [3, 5, 8] (by decide)).1 (by decide) (by decide))


/-! ## Structural lemmas about `apply_special_rules` -/

open List

/-- Flattened contents of the duplicate groups. -/
def groupsFlat (gs : List (String × List ApItem)) : List ApItem :=
  (gs.map (fun p => p.2)).flatten

/-- Keys of the duplicate groups. -/
def groupKeys (gs : List (String × List ApItem)) : List String :=
  gs.map (fun p => p.1)

/-- Invariant of one duplicate group entry: its key is in the configured
set, it is nonempty, and its members are unexcluded items whose base
name is the key. -/
def GoodEntry (p : String × List ApItem) : Prop :=
  p.1 ∈ highest_step_only_items ∧ p.2 ≠ [] ∧
    ∀ a ∈ p.2, a.was_excluded = false ∧ extract_base_name a.name = p.1

/-- Invariant of the duplicate-group map: distinct keys, good entries. -/
def GoodGroups (gs : List (String × List ApItem)) : Prop :=
  (groupKeys gs).Nodup ∧ ∀ p ∈ gs, GoodEntry p

/-- Invariant of the plain result list: unexcluded items whose base name
is not in the configured set. -/
def GoodRes (res : List ApItem) : Prop :=
  ∀ a ∈ res, a.was_excluded = false ∧
    extract_base_name a.name ∉ highest_step_only_items

/-- Clearing the flag of an unexcluded item is the identity. -/
lemma clearExcl_of_not_excluded {a : ApItem} (h : a.was_excluded = false) :
    clearExcl a = a := by
  cases a
  simp_all [clearExcl]

/-- Clearing after marking equals clearing. -/
lemma clearExcl_markExcluded (a : ApItem) :
    clearExcl (markExcluded a) = clearExcl a := by
  cases a
  rfl

/-- Mapping `clearExcl` over unexcluded items is the identity. -/
lemma map_clearExcl_eq_self :
    ∀ g : List ApItem, (∀ a ∈ g, a.was_excluded = false) →
      g.map clearExcl = g := by
  intro g
  induction g with
  | nil => intro _; rfl
  | cons x xs ih =>
    intro h
    rw [List.map_cons, clearExcl_of_not_excluded (h x (by simp)),
      ih (fun a ha => h a (by simp [ha]))]

/-- Keys of a consed group list. -/
lemma groupKeys_cons (p : String × List ApItem)
    (rest : List (String × List ApItem)) :
    groupKeys (p :: rest) = p.1 :: groupKeys rest := rfl

/-- `add_to_group` on a matching head key appends to that group. -/
lemma add_to_group_cons_eq {k0 k : String} {xs : List ApItem}
    {rest : List (String × List ApItem)} {x : ApItem} (h : k0 = k) :
    add_to_group ((k0, xs) :: rest) k x = (k0, xs ++ [x]) :: rest := by
  simp [add_to_group, h]

/-- `add_to_group` on a non-matching head key recurses. -/
lemma add_to_group_cons_ne {k0 k : String} {xs : List ApItem}
    {rest : List (String × List ApItem)} {x : ApItem} (h : ¬k0 = k) :
    add_to_group ((k0, xs) :: rest) k x =
      (k0, xs) :: add_to_group rest k x := by
  simp [add_to_group, h]

/-- Keys after `add_to_group` come from the old keys or are the new key. -/
lemma add_to_group_keys_sub :
    ∀ (gs : List (String × List ApItem)) (k : String) (x : ApItem),
      ∀ k' ∈ groupKeys (add_to_group gs k x), k' ∈ groupKeys gs ∨ k' = k := by
  intro gs k x
  induction gs with
  | nil =>
    intro k' h
    simp [add_to_group, groupKeys] at h
    exact Or.inr h
  | cons p rest ih =>
    obtain ⟨k0, xs⟩ := p
    intro k' h
    by_cases hk : k0 = k
    · rw [add_to_group_cons_eq hk, groupKeys_cons] at h
      rcases List.mem_cons.mp h with h | h
      · exact Or.inl (by rw [groupKeys_cons]; simp [h])
      · exact Or.inl (by rw [groupKeys_cons]; simp [h])
    · rw [add_to_group_cons_ne hk, groupKeys_cons] at h
      rcases List.mem_cons.mp h with h | h
      · exact Or.inl (by rw [groupKeys_cons]; simp [h])
      · rcases ih k' h with h' | h'
        · exact Or.inl (by rw [groupKeys_cons]; simp [h'])
        · exact Or.inr h'

/-- `add_to_group` preserves the group invariant when the added item
matches the key and the key is in the configured set. -/
lemma add_to_group_good :
    ∀ (gs : List (String × List ApItem)) (k : String) (x : ApItem),
      k ∈ highest_step_only_items → x.was_excluded = false →
      extract_base_name x.name = k → GoodGroups gs →
      GoodGroups (add_to_group gs k x) := by
  intro gs k x hk hx hb
  induction gs with
  | nil =>
    intro _
    constructor
    · simp [add_to_group, groupKeys]
    · intro p hp
      simp [add_to_group] at hp
      subst hp
      exact ⟨hk, by simp, by simp [hx, hb]⟩
  | cons q rest ih =>
    rintro ⟨hnd, hent⟩
    obtain ⟨k0, xs⟩ := q
    rw [groupKeys_cons] at hnd
    have hnd0 : k0 ∉ groupKeys rest := (List.nodup_cons.mp hnd).1
    have hndrest : (groupKeys rest).Nodup := (List.nodup_cons.mp hnd).2
    by_cases hkk : k0 = k
    · rw [add_to_group_cons_eq hkk]
      constructor
      · rw [groupKeys_cons]
        exact List.nodup_cons.mpr ⟨hnd0, hndrest⟩
      · intro p hp
        rcases List.mem_cons.mp hp with hp | hp
        · subst hp
          obtain ⟨h1, _, h3⟩ := hent (k0, xs) (List.mem_cons_self _ _)
          refine ⟨h1, by simp, ?_⟩
          intro a ha
          rcases List.mem_append.mp ha with ha | ha
          · exact h3 a ha
          · have hax : a = x := by simpa using ha
            subst hax
            exact ⟨hx, hb.trans hkk.symm⟩
        · exact hent p (List.mem_cons_of_mem _ hp)
    · rw [add_to_group_cons_ne hkk]
      have ihg : GoodGroups (add_to_group rest k x) :=
        ih ⟨hndrest, fun p hp => hent p (List.mem_cons_of_mem _ hp)⟩
      constructor
      · rw [groupKeys_cons]
        refine List.nodup_cons.mpr ⟨?_, ihg.1⟩
        intro hmem
        rcases add_to_group_keys_sub rest k x k0 hmem with h | h
        · exact hnd0 h
        · exact hkk h
      · intro p hp
        rcases List.mem_cons.mp hp with hp | hp
        · subst hp
          exact hent (k0, xs) (List.mem_cons_self _ _)
        · exact ihg.2 p hp

/-- The flattened contents after `add_to_group` are a permutation of the
new item consed onto the old contents. -/
lemma add_to_group_flat :
    ∀ (gs : List (String × List ApItem)) (k : String) (x : ApItem),
      groupsFlat (add_to_group gs k x) ~ x :: groupsFlat gs := by
  intro gs k x
  induction gs with
  | nil => simp [add_to_group, groupsFlat]
  | cons p rest ih =>
    obtain ⟨k0, xs⟩ := p
    by_cases hk : k0 = k
    · rw [add_to_group_cons_eq hk]
      simp only [groupsFlat, List.map_cons, List.flatten_cons]
      calc (xs ++ [x]) ++ (rest.map (fun p => p.2)).flatten
          ~ (x :: xs) ++ (rest.map (fun p => p.2)).flatten :=
            (List.perm_append_singleton x xs).append_right _
        _ = x :: (xs ++ (rest.map (fun p => p.2)).flatten) := rfl
    · rw [add_to_group_cons_ne hk]
      simp only [groupsFlat, List.map_cons, List.flatten_cons]
      calc xs ++ ((add_to_group rest k x).map (fun p => p.2)).flatten
          ~ xs ++ (x :: (rest.map (fun p => p.2)).flatten) := ih.append_left xs
        _ ~ x :: (xs ++ (rest.map (fun p => p.2)).flatten) := List.perm_middle

/-- Master invariant of the routing pass `buildAux`. -/
lemma buildAux_spec :
    ∀ (items : List Item) (res : List ApItem)
      (gs : List (String × List ApItem)),
      GoodRes res → GoodGroups gs →
      GoodRes (buildAux items res gs).1 ∧
      GoodGroups (buildAux items res gs).2 ∧
      ((buildAux items res gs).1 ++ groupsFlat (buildAux items res gs).2 ~
        (res ++ groupsFlat gs) ++ items.map mk_ap_item) := by
  intro items
  induction items with
  | nil =>
    intro res gs hres hgs
    exact ⟨hres, hgs, by simp [buildAux]⟩
  | cons it rest ih =>
    intro res gs hres hgs
    by_cases hb : extract_base_name it.name ∈ highest_step_only_items
    · have hgs' : GoodGroups (add_to_group gs (extract_base_name it.name)
          (mk_ap_item it)) :=
        add_to_group_good gs _ _ hb rfl rfl hgs
      have step : buildAux (it :: rest) res gs =
          buildAux rest res (add_to_group gs (extract_base_name it.name)
            (mk_ap_item it)) := by
        simp [buildAux, hb]
      obtain ⟨h1, h2, h3⟩ := ih res _ hres hgs'
      rw [step]
      refine ⟨h1, h2, h3.trans ?_⟩
      calc (res ++ groupsFlat (add_to_group gs (extract_base_name it.name)
            (mk_ap_item it))) ++ rest.map mk_ap_item
          ~ (res ++ (mk_ap_item it :: groupsFlat gs)) ++ rest.map mk_ap_item :=
            ((add_to_group_flat gs _ _).append_left res).append_right _
        _ = res ++ mk_ap_item it :: (groupsFlat gs ++ rest.map mk_ap_item) := by
            simp
        _ ~ mk_ap_item it :: (res ++ (groupsFlat gs ++ rest.map mk_ap_item)) :=
            List.perm_middle
        _ = mk_ap_item it :: ((res ++ groupsFlat gs) ++ rest.map mk_ap_item) := by
            rw [List.append_assoc]
        _ ~ (res ++ groupsFlat gs) ++ mk_ap_item it :: rest.map mk_ap_item :=
            List.perm_middle.symm
        _ = (res ++ groupsFlat gs) ++ (it :: rest).map mk_ap_item := by simp
    · have hres' : GoodRes (res ++ [mk_ap_item it]) := by
        intro a ha
        rcases List.mem_append.mp ha with ha | ha
        · exact hres a ha
        · have hax : a = mk_ap_item it := by simpa using ha
          subst hax
          exact ⟨rfl, hb⟩
      have step : buildAux (it :: rest) res gs =
          buildAux rest (res ++ [mk_ap_item it]) gs := by
        simp [buildAux, hb]
      obtain ⟨h1, h2, h3⟩ := ih (res ++ [mk_ap_item it]) gs hres' hgs
      rw [step]
      refine ⟨h1, h2, h3.trans ?_⟩
      calc ((res ++ [mk_ap_item it]) ++ groupsFlat gs) ++ rest.map mk_ap_item
          = (res ++ mk_ap_item it :: groupsFlat gs) ++ rest.map mk_ap_item := by
            simp
        _ ~ (mk_ap_item it :: (res ++ groupsFlat gs)) ++ rest.map mk_ap_item :=
            List.perm_middle.append_right _
        _ = mk_ap_item it :: ((res ++ groupsFlat gs) ++ rest.map mk_ap_item) :=
            rfl
        _ ~ (res ++ groupsFlat gs) ++ mk_ap_item it :: rest.map mk_ap_item :=
            List.perm_middle.symm
        _ = (res ++ groupsFlat gs) ++ (it :: rest).map mk_ap_item := by simp

/-- Filtering for unexcluded items among marked items yields nothing. -/
lemma filter_markExcluded_nil :
    ∀ t : List ApItem,
      (t.map markExcluded).filter (fun a => !a.was_excluded) = [] := by
  intro t
  induction t with
  | nil => rfl
  | cons y ys ih => simp [markExcluded, ih]

/-- The sorted duplicate group is a permutation of the group. -/
lemma sortByStepDesc_perm (g : List ApItem) : sortByStepDesc g ~ g :=
  List.perm_insertionSort _ _

/-- The sorted duplicate group is sorted by descending step. -/
lemma sortByStepDesc_sorted (g : List ApItem) :
    List.Sorted stepRel (sortByStepDesc g) :=
  List.sorted_insertionSort _ _

/-- Combined behaviour of `group_output` on a nonempty group of
unexcluded items: it is the group up to exclusion flags, exactly one
member stays unexcluded, that member has the maximal step, every output
member keeps the attributes of a group member, and the length is
unchanged. -/
lemma group_output_spec (g : List ApItem) (hne : g ≠ [])
    (hex : ∀ a ∈ g, a.was_excluded = false) :
    ((group_output g).map clearExcl ~ g) ∧
    ((group_output g).filter (fun a => !a.was_excluded)).length = 1 ∧
    (∀ a ∈ group_output g, a.was_excluded = false →
      ∀ b ∈ group_output g, stepOr1 b.step ≤ stepOr1 a.step) ∧
    (∀ a ∈ group_output g, ∃ a0 ∈ g, a.name = a0.name ∧ a.step = a0.step ∧
      a.ap_cost = a0.ap_cost ∧ a.item_type = a0.item_type) ∧
    (group_output g).length = g.length := by
  match g with
  | [] => exact absurd rfl hne
  | [x] =>
    have hx : x.was_excluded = false := hex x (by simp)
    refine ⟨?_, ?_, ?_, ?_, rfl⟩
    · simp [group_output, clearExcl_of_not_excluded hx]
    · simp [group_output, hx]
    · intro a ha _ b hb
      simp [group_output] at ha hb
      subst ha
      subst hb
      exact le_refl _
    · intro a ha
      simp [group_output] at ha
      subst ha
      exact ⟨a, by simp, rfl, rfl, rfl, rfl⟩
  | x :: y :: ys =>
    have hsp : sortByStepDesc (x :: y :: ys) ~ x :: y :: ys :=
      sortByStepDesc_perm _
    have hsne : sortByStepDesc (x :: y :: ys) ≠ [] := by
      intro hnil
      have := hsp.length_eq
      rw [hnil] at this
      simp at this
    obtain ⟨h, t, heq⟩ := List.exists_cons_of_ne_nil hsne
    have hgo : group_output (x :: y :: ys) = h :: t.map markExcluded := by
      simp only [group_output]
      rw [heq]
    have hsmem : ∀ a, a ∈ h :: t → a ∈ x :: y :: ys := by
      intro a ha
      exact hsp.mem_iff.mp (heq ▸ ha)
    have hsex : ∀ a ∈ h :: t, a.was_excluded = false :=
      fun a ha => hex a (hsmem a ha)
    have hsort : List.Sorted stepRel (h :: t) := heq ▸ sortByStepDesc_sorted _
    have hcomp : clearExcl ∘ markExcluded = clearExcl :=
      funext clearExcl_markExcluded
    have hmapclear : (group_output (x :: y :: ys)).map clearExcl =
        (h :: t).map clearExcl := by
      rw [hgo, List.map_cons, List.map_cons, List.map_map, hcomp]
    refine ⟨?_, ?_, ?_, ?_, ?_⟩
    · rw [hmapclear, map_clearExcl_eq_self _ hsex]
      exact heq ▸ hsp
    · rw [hgo]
      have hh : h.was_excluded = false := hsex h (by simp)
      simp [hh, filter_markExcluded_nil]
    · intro a ha hexa b hb
      rw [hgo] at ha hb
      have ha' : a = h := by
        rcases List.mem_cons.mp ha with ha | ha
        · exact ha
        · obtain ⟨a0, _, ha0⟩ := List.mem_map.mp ha
          rw [← ha0] at hexa
          simp [markExcluded] at hexa
      subst ha'
      rcases List.mem_cons.mp hb with hb | hb
      · subst hb
        exact le_refl _
      · obtain ⟨b0, hb0, hbe⟩ := List.mem_map.mp hb
        have hrel : stepRel a b0 := List.rel_of_sorted_cons hsort b0 hb0
        rw [← hbe]
        simpa [markExcluded, stepRel] using hrel
    · intro a ha
      rw [hgo] at ha
      rcases List.mem_cons.mp ha with ha | ha
      · subst ha
        exact ⟨a, hsmem a (by simp), rfl, rfl, rfl, rfl⟩
      · obtain ⟨a0, ha0, hae⟩ := List.mem_map.mp ha
        refine ⟨a0, hsmem a0 (by simp [ha0]), ?_⟩
        rw [← hae]
        simp [markExcluded]
    · rw [hgo]
      have : (h :: t).length = (x :: y :: ys).length := by
        rw [← heq]
        exact (sortByStepDesc_perm _).length_eq
      simpa using this

/-- `process_groups` appends the group outputs to the result. -/
lemma process_groups_eq :
    ∀ (gs : List (String × List ApItem)) (res : List ApItem),
      process_groups res gs =
        res ++ (gs.map (fun p => group_output p.2)).flatten := by
  intro gs
  induction gs with
  | nil => intro res; simp [process_groups]
  | cons p rest ih =>
    intro res
    obtain ⟨k, g⟩ := p
    show process_groups (res ++ group_output g) rest = _
    rw [ih, List.map_cons, List.flatten_cons, List.append_assoc]

/-- Decomposition of `apply_special_rules`: a plain part and group
outputs, with the invariants established by the routing pass. -/
lemma apply_special_rules_eq (c : Character) :
    ∃ res gs, GoodRes res ∧ GoodGroups gs ∧
      apply_special_rules c =
        res ++ (gs.map (fun p => group_output p.2)).flatten ∧
      (res ++ groupsFlat gs ~ (get_ap_items c).map mk_ap_item) := by
  obtain ⟨h1, h2, h3⟩ := buildAux_spec (get_ap_items c) [] []
    (fun a ha => absurd ha (by simp))
    ⟨by simp [groupKeys], fun p hp => absurd hp (by simp)⟩
  refine ⟨(buildAux (get_ap_items c) [] []).1,
    (buildAux (get_ap_items c) [] []).2, h1, h2, ?_, ?_⟩
  · rw [apply_special_rules, process_groups_eq]
  · refine h3.trans ?_
    simp [groupsFlat]

/-- Group entries with equal keys are equal when keys are distinct. -/
lemma entry_unique :
    ∀ (gs : List (String × List ApItem)), (groupKeys gs).Nodup →
      ∀ p ∈ gs, ∀ q ∈ gs, p.1 = q.1 → p = q := by
  intro gs
  induction gs with
  | nil =>
    intro _ p hp
    exact absurd hp (by simp)
  | cons r rest ih =>
    intro hnd p hp q hq hpq
    rw [groupKeys_cons] at hnd
    have h1 := (List.nodup_cons.mp hnd).1
    have h2 := (List.nodup_cons.mp hnd).2
    rcases List.mem_cons.mp hp with hp | hp <;>
      rcases List.mem_cons.mp hq with hq | hq
    · rw [hp, hq]
    · exfalso
      apply h1
      rw [hp] at hpq
      rw [hpq]
      exact List.mem_map.mpr ⟨q, hq, rfl⟩
    · exfalso
      apply h1
      rw [hq] at hpq
      rw [← hpq]
      exact List.mem_map.mpr ⟨p, hp, rfl⟩
    · exact ih h2 p hp q hq hpq

/-- Mapping `clearExcl` over the flattened group outputs recovers the
flattened groups, up to permutation. -/
lemma clearExcl_flatGo :
    ∀ gs : List (String × List ApItem), GoodGroups gs →
      (((gs.map (fun p => group_output p.2)).flatten).map clearExcl ~
        groupsFlat gs) := by
  intro gs
  induction gs with
  | nil => intro _; simp [groupsFlat]
  | cons p rest ih =>
    rintro ⟨hnd, hent⟩
    rw [groupKeys_cons] at hnd
    have hgrest : GoodGroups rest :=
      ⟨(List.nodup_cons.mp hnd).2, fun q hq => hent q (List.mem_cons_of_mem _ hq)⟩
    obtain ⟨_, hne, hmem⟩ := hent p (List.mem_cons_self _ _)
    have hex : ∀ b ∈ p.2, b.was_excluded = false := fun b hb => (hmem b hb).1
    have hgp := (group_output_spec p.2 hne hex).1
    rw [List.map_cons, List.flatten_cons, List.map_append]
    show _ ~ groupsFlat (p :: rest)
    rw [groupsFlat, List.map_cons, List.flatten_cons]
    exact hgp.append (ih hgrest)

/-- Every priced item in the output of `apply_special_rules` carries the
name, step, cost and type of some AP-bearing source item. -/
lemma mem_apply_special_rules_attrs (c : Character) :
    ∀ a ∈ apply_special_rules c, ∃ it ∈ get_ap_items c,
      a.name = it.name ∧ a.step = resolvedStepOpt it ∧
      a.ap_cost = calculate_item_ap_cost it ∧ a.item_type = it.item_type := by
  obtain ⟨res, gs, hres, hgs, heq, hperm⟩ := apply_special_rules_eq c
  intro a ha
  rw [heq] at ha
  rcases List.mem_append.mp ha with ha | ha
  · have hmm : a ∈ (get_ap_items c).map mk_ap_item :=
      hperm.mem_iff.mp (List.mem_append.mpr (Or.inl ha))
    obtain ⟨it, hit, hmk⟩ := List.mem_map.mp hmm
    refine ⟨it, hit, ?_, ?_, ?_, ?_⟩ <;> rw [← hmk] <;> rfl
  · obtain ⟨l, hl, hal⟩ := List.mem_flatten.mp ha
    obtain ⟨p, hp, hlp⟩ := List.mem_map.mp hl
    obtain ⟨_, hne, hmem⟩ := hgs.2 p hp
    have hex : ∀ b ∈ p.2, b.was_excluded = false := fun b hb => (hmem b hb).1
    obtain ⟨_, _, _, hattr, _⟩ := group_output_spec p.2 hne hex
    rw [← hlp] at hal
    obtain ⟨a0, ha0, hn, hs, hc, ht⟩ := hattr a hal
    have ha0flat : a0 ∈ groupsFlat gs := by
      rw [groupsFlat]
      exact List.mem_flatten.mpr ⟨p.2, List.mem_map.mpr ⟨p, hp, rfl⟩, ha0⟩
    have hmm : a0 ∈ (get_ap_items c).map mk_ap_item :=
      hperm.mem_iff.mp (List.mem_append.mpr (Or.inr ha0flat))
    obtain ⟨it, hit, hmk⟩ := List.mem_map.mp hmm
    refine ⟨it, hit, ?_, ?_, ?_, ?_⟩
    · rw [hn, ← hmk]
      rfl
    · rw [hs, ← hmk]
      rfl
    · rw [hc, ← hmk]
      rfl
    · rw [ht, ← hmk]
      rfl

/-- Per-base-name contributor count over the flattened group outputs:
exactly one unexcluded member per present base name. -/
lemma count_flatGo (nm : String) :
    ∀ gs : List (String × List ApItem), GoodGroups gs →
      (((gs.map (fun p => group_output p.2)).flatten).filter
        (fun a => !a.was_excluded && (extract_base_name a.name == nm))).length =
      min 1 (((gs.map (fun p => group_output p.2)).flatten).filter
        (fun a => extract_base_name a.name == nm)).length := by
  intro gs
  induction gs with
  | nil => intro _; simp
  | cons p rest ih =>
    rintro ⟨hnd, hent⟩
    rw [groupKeys_cons] at hnd
    have hgrest : GoodGroups rest :=
      ⟨(List.nodup_cons.mp hnd).2,
        fun q hq => hent q (List.mem_cons_of_mem _ hq)⟩
    obtain ⟨hk, hne, hmem⟩ := hent p (List.mem_cons_self _ _)
    have hex : ∀ b ∈ p.2, b.was_excluded = false := fun b hb => (hmem b hb).1
    obtain ⟨_, hcount1, _, hattr, hlen⟩ := group_output_spec p.2 hne hex
    have hbasego : ∀ a ∈ group_output p.2, extract_base_name a.name = p.1 := by
      intro a ha
      obtain ⟨a0, ha0, hn, _⟩ := hattr a ha
      rw [hn]
      exact (hmem a0 ha0).2
    rw [List.map_cons, List.flatten_cons, List.filter_append,
      List.filter_append, List.length_append, List.length_append]
    by_cases hpk : p.1 = nm
    · have hA : ((group_output p.2).filter
          (fun a => !a.was_excluded && (extract_base_name a.name == nm))).length
          = 1 := by
        have hcongr : (group_output p.2).filter
            (fun a => !a.was_excluded && (extract_base_name a.name == nm)) =
            (group_output p.2).filter (fun a => !a.was_excluded) := by
          apply List.filter_congr
          intro a ha
          simp [hbasego a ha, hpk]
        rw [hcongr, hcount1]
      have hB : ((group_output p.2).filter
          (fun a => extract_base_name a.name == nm)) = group_output p.2 := by
        apply List.filter_eq_self.mpr
        intro a ha
        simp [hbasego a ha, hpk]
      have hnorest : ∀ a ∈ (rest.map (fun p => group_output p.2)).flatten,
          extract_base_name a.name ≠ nm := by
        intro a ha
        obtain ⟨l, hl, hal⟩ := List.mem_flatten.mp ha
        obtain ⟨q, hq, hlq⟩ := List.mem_map.mp hl
        obtain ⟨_, hneq, hmemq⟩ := hgrest.2 q hq
        have hexq : ∀ b ∈ q.2, b.was_excluded = false :=
          fun b hb => (hmemq b hb).1
        obtain ⟨_, _, _, hattrq, _⟩ := group_output_spec q.2 hneq hexq
        rw [← hlq] at hal
        obtain ⟨a0, ha0, hn, _⟩ := hattrq a hal
        rw [hn, (hmemq a0 ha0).2]
        intro hqnm
        apply (List.nodup_cons.mp hnd).1
        rw [hpk, ← hqnm]
        exact List.mem_map.mpr ⟨q, hq, rfl⟩
      have hCA : ((rest.map (fun p => group_output p.2)).flatten).filter
          (fun a => !a.was_excluded && (extract_base_name a.name == nm)) = [] := by
        apply List.filter_eq_nil_iff.mpr
        intro a ha
        simp [hnorest a ha]
      have hCB : ((rest.map (fun p => group_output p.2)).flatten).filter
          (fun a => extract_base_name a.name == nm) = [] := by
        apply List.filter_eq_nil_iff.mpr
        intro a ha
        simp [hnorest a ha]
      rw [hA, hCA, hCB, hB]
      have hpos : 1 ≤ (group_output p.2).length := by
        rw [hlen]
        exact List.length_pos.mpr hne
      simp only [List.length_nil]
      omega
    · have hA : ((group_output p.2).filter
          (fun a => !a.was_excluded && (extract_base_name a.name == nm))) = [] := by
        apply List.filter_eq_nil_iff.mpr
        intro a ha
        simp [hbasego a ha, hpk]
      have hB : ((group_output p.2).filter
          (fun a => extract_base_name a.name == nm)) = [] := by
        apply List.filter_eq_nil_iff.mpr
        intro a ha
        simp [hbasego a ha, hpk]
      rw [hA, hB]
      simpa using ih hgrest

/-! ## Claim C4 -/

/-- C4: duplicate resolution.  Every AP-bearing item appears in the
output (up to the exclusion flag); items whose base name is outside the
configured set are never excluded; excluded items always belong to the
configured set; an unexcluded item of a configured base name carries the
numerically highest step among all output items of that base name;
for each configured base name, exactly one output item is unexcluded
whenever any item of that base name exists (and none otherwise); and the
grand total only sums unexcluded items, so excluded items contribute 0. -/
theorem duplicate_resolution_spec (c : Character) :
    ((apply_special_rules c).map clearExcl ~
      (get_ap_items c).map mk_ap_item) ∧
    (∀ a ∈ apply_special_rules c,
      extract_base_name a.name ∉ highest_step_only_items →
        a.was_excluded = false) ∧
    (∀ a ∈ apply_special_rules c, a.was_excluded = true →
      extract_base_name a.name ∈ highest_step_only_items) ∧
    (∀ a ∈ apply_special_rules c, a.was_excluded = false →
      extract_base_name a.name ∈ highest_step_only_items →
      ∀ b ∈ apply_special_rules c,
        extract_base_name b.name = extract_base_name a.name →
          stepOr1 b.step ≤ stepOr1 a.step) ∧
    (∀ nm ∈ highest_step_only_items,
      ((apply_special_rules c).filter
        (fun a => !a.was_excluded && (extract_base_name a.name == nm))).length =
      min 1 ((apply_special_rules c).filter
        (fun a => extract_base_name a.name == nm)).length) ∧
    calculate_total_spent_ap c =
      (((apply_special_rules c).filter (fun a => !a.was_excluded)).map
        (fun a => a.ap_cost)).sum + calculate_skills_ap c +
        calculate_combat_skills_ap c + calculate_spells_and_rituals_ap c +
        calculate_magic_tricks_ap c + calculate_liturgies_and_ceremonies_ap c +
        calculate_blessings_ap c + calculate_characteristics_ap c +
        calculate_energy_values_ap c := by
  obtain ⟨res, gs, hres, hgs, heq, hperm⟩ := apply_special_rules_eq c
  have hbasego : ∀ p ∈ gs, ∀ a ∈ group_output p.2,
      extract_base_name a.name = p.1 ∧
      (a.was_excluded = false →
        ∀ b ∈ group_output p.2, stepOr1 b.step ≤ stepOr1 a.step) := by
    intro p hp a ha
    obtain ⟨_, hne, hmem⟩ := hgs.2 p hp
    have hex : ∀ b ∈ p.2, b.was_excluded = false := fun b hb => (hmem b hb).1
    obtain ⟨_, _, hmax, hattr, _⟩ := group_output_spec p.2 hne hex
    obtain ⟨a0, ha0, hn, _⟩ := hattr a ha
    exact ⟨by rw [hn]; exact (hmem a0 ha0).2, fun hfa => hmax a ha hfa⟩
  refine ⟨?_, ?_, ?_, ?_, ?_, rfl⟩
  · rw [heq, List.map_append, map_clearExcl_eq_self res
      (fun a ha => (hres a ha).1)]
    exact ((clearExcl_flatGo gs hgs).append_left res).trans hperm
  · intro a ha hout
    rw [heq] at ha
    rcases List.mem_append.mp ha with ha | ha
    · exact (hres a ha).1
    · exfalso
      obtain ⟨l, hl, hal⟩ := List.mem_flatten.mp ha
      obtain ⟨p, hp, hlp⟩ := List.mem_map.mp hl
      rw [← hlp] at hal
      exact hout ((hbasego p hp a hal).1 ▸ (hgs.2 p hp).1)
  · intro a ha hexa
    rw [heq] at ha
    rcases List.mem_append.mp ha with ha | ha
    · rw [(hres a ha).1] at hexa
      exact absurd hexa (by simp)
    · obtain ⟨l, hl, hal⟩ := List.mem_flatten.mp ha
      obtain ⟨p, hp, hlp⟩ := List.mem_map.mp hl
      rw [← hlp] at hal
      exact (hbasego p hp a hal).1 ▸ (hgs.2 p hp).1
  · intro a ha hfa hset b hb hbase
    rw [heq] at ha hb
    rcases List.mem_append.mp ha with ha | ha
    · exact absurd hset (hres a ha).2
    · obtain ⟨l, hl, hal⟩ := List.mem_flatten.mp ha
      obtain ⟨p, hp, hlp⟩ := List.mem_map.mp hl
      rw [← hlp] at hal
      rcases List.mem_append.mp hb with hb | hb
      · exfalso
        apply (hres b hb).2
        rw [hbase]
        exact hset
      · obtain ⟨l', hl', hbl⟩ := List.mem_flatten.mp hb
        obtain ⟨q, hq, hlq⟩ := List.mem_map.mp hl'
        rw [← hlq] at hbl
        have hpq : q = p := by
          apply entry_unique gs hgs.1 q hq p hp
          rw [(hbasego q hq b hbl).1, (hbasego p hp a hal).1] at hbase
          exact hbase
        rw [hpq] at hbl
        exact (hbasego p hp a hal).2 hfa b hbl
  · intro nm hnm
    rw [heq, List.filter_append, List.filter_append, List.length_append,
      List.length_append]
    have hresA : res.filter
        (fun a => !a.was_excluded && (extract_base_name a.name == nm)) = [] := by
      apply List.filter_eq_nil_iff.mpr
      intro a ha
      have : extract_base_name a.name ≠ nm := by
        intro hh
        exact (hres a ha).2 (hh ▸ hnm)
      simp [this]
    have hresB : res.filter
        (fun a => extract_base_name a.name == nm) = [] := by
      apply List.filter_eq_nil_iff.mpr
      intro a ha
      have : extract_base_name a.name ≠ nm := by
        intro hh
        exact (hres a ha).2 (hh ▸ hnm)
      simp [this]
    rw [hresA, hresB]
    simpa using count_flatGo nm gs hgs

/-- C4 witness: on a character owning "Prinzipientreue (A)" (step 1) and
"Prinzipientreue (B)" (step 3), exactly one output item of that base
name is unexcluded. -/
theorem duplicate_resolution_spec_witness :
    ((apply_special_rules charDup).filter
      (fun a => !a.was_excluded &&
        (extract_base_name a.name == "Prinzipientreue"))).length = 1 := by
  have h := (duplicate_resolution_spec charDup).2.2.2.2.1 "Prinzipientreue"
    (by decide)
  exact h.trans (by decide)

/-! ## Non-negativity lemmas (claim C8) -/

/-- The marginal-cost accumulation is non-negative for a non-negative
multiplier. -/
lemma cost_above_12_nonneg (a m : Int) (hm : 0 ≤ m) :
    0 ≤ cost_above_12 a m := by
  rw [cost_above_12_eq_sum]
  apply Finset.sum_nonneg
  intro k _
  have : (0 : Int) ≤ (k : Int) + 1 := by positivity
  exact mul_nonneg hm this

/-- The generic talent curve is non-negative for a non-negative
multiplier. -/
lemma talent_value_to_ap_cost_nonneg (v m : Int) (hm : 0 ≤ m) :
    0 ≤ talent_value_to_ap_cost v m := by
  rw [talent_value_to_ap_cost]
  split
  · exact le_refl 0
  · split
    · exact mul_nonneg (by omega) hm
    · exact add_nonneg (mul_nonneg (by norm_num) hm)
        (cost_above_12_nonneg _ m hm)

/-- The generic curve at 6 bounds the curve at any value above 6. -/
lemma talent_six_le (v m : Int) (hm : 0 ≤ m) (hv : 6 < v) :
    talent_value_to_ap_cost 6 m ≤ talent_value_to_ap_cost v m := by
  have h6 : talent_value_to_ap_cost 6 m = 6 * m := by
    rw [talent_value_to_ap_cost, if_neg (by omega), if_pos (by omega)]
  rw [h6, talent_value_to_ap_cost, if_neg (by omega)]
  split
  · rename_i h12
    nlinarith
  · have hc := cost_above_12_nonneg (v - 12) m hm
    nlinarith

/-- The combat-skill curve is non-negative for a non-negative
multiplier. -/
lemma combat_skill_cost_nonneg (v m : Int) (hm : 0 ≤ m) :
    0 ≤ combat_skill_talent_value_to_ap_cost v m := by
  rw [combat_skill_talent_value_to_ap_cost]
  split
  · exact le_refl 0
  · rename_i h
    exact sub_nonneg.mpr (talent_six_le v m hm (by omega))

/-- A successful grade lookup yields a positive multiplier. -/
lemma stf_to_multiplier_pos {s : String} {m : Int}
    (h : stf_to_multiplier s = some m) : 1 ≤ m := by
  rw [stf_to_multiplier] at h
  split at h <;> simp at h <;> omega

/-- Sums of filter-mapped non-negative contributions are non-negative. -/
lemma sum_filterMap_nonneg (f : Item → Option Int) (l : List Item)
    (h : ∀ it x, f it = some x → 0 ≤ x) : 0 ≤ (l.filterMap f).sum := by
  apply List.sum_nonneg
  intro x hx
  obtain ⟨it, _, hfx⟩ := List.mem_filterMap.mp hx
  exact h it x hfx

/-- The talent-curve contribution of one item is non-negative. -/
lemma talent_contrib_nonneg (curve : Int → Int → Int)
    (hcurve : ∀ tv m, 1 ≤ m → 0 ≤ curve tv m) (sys : ItemSystem) (x : Int)
    (h : ((get_talent_value sys).bind parseI32).bind (fun tv =>
      ((get_st_f_value sys).bind stf_to_multiplier).map (fun m =>
        curve tv m)) = some x) : 0 ≤ x := by
  rw [Option.bind_eq_some] at h
  obtain ⟨tv, _, h⟩ := h
  rw [Option.map_eq_some'] at h
  obtain ⟨m, hm, hx⟩ := h
  rw [Option.bind_eq_some] at hm
  obtain ⟨s, _, hs⟩ := hm
  rw [← hx]
  exact hcurve tv m (stf_to_multiplier_pos hs)

/-- The skills category sum is non-negative. -/
lemma calculate_skills_ap_nonneg (c : Character) :
    0 ≤ calculate_skills_ap c := by
  apply sum_filterMap_nonneg
  intro it x hx
  exact talent_contrib_nonneg talent_value_to_ap_cost
    (fun tv m hm => talent_value_to_ap_cost_nonneg tv m (by omega))
    it.system x hx

/-- The combat-skills category sum is non-negative. -/
lemma calculate_combat_skills_ap_nonneg (c : Character) :
    0 ≤ calculate_combat_skills_ap c := by
  apply sum_filterMap_nonneg
  intro it x hx
  exact talent_contrib_nonneg combat_skill_talent_value_to_ap_cost
    (fun tv m hm => combat_skill_cost_nonneg tv m (by omega))
    it.system x hx

/-- Any learned-abilities sum is non-negative. -/
lemma calculate_learned_abilities_ap_nonneg (items : List Item) :
    0 ≤ calculate_learned_abilities_ap items := by
  apply sum_filterMap_nonneg
  intro it x hx
  exact talent_contrib_nonneg learned_ability_talent_value_to_ap_cost
    (fun tv m hm => add_nonneg (by omega)
      (talent_value_to_ap_cost_nonneg tv m (by omega)))
    it.system x hx

/-- A characteristic cost returned by the curve is non-negative. -/
lemma characteristic_ok_nonneg {v cost : Int}
    (h : characteristic_to_ap_cost v = .ok cost) : 0 ≤ cost := by
  rw [characteristic_to_ap_cost] at h
  split at h
  · simp at h
  · split at h
    · rename_i h8 h14
      cases h
      exact mul_nonneg (by omega) (by norm_num)
    · cases h
      refine add_nonneg (by norm_num) ?_
      rw [cost_above_14_loop_eq_sum]
      apply Finset.sum_nonneg
      intro i _
      positivity

/-- One optional characteristic contributes a non-negative cost. -/
lemma char_cost_opt_nonneg (co : Option CharacteristicValue) :
    0 ≤ char_cost_opt co := by
  rw [char_cost_opt.eq_def]
  split
  · split
    · rename_i heq
      exact characteristic_ok_nonneg heq
    · exact le_refl 0
  · exact le_refl 0

/-- The characteristics category sum is non-negative. -/
lemma calculate_characteristics_ap_nonneg (c : Character) :
    0 ≤ calculate_characteristics_ap c := by
  rw [calculate_characteristics_ap]
  split
  · split
    · refine add_nonneg (add_nonneg (add_nonneg (add_nonneg (add_nonneg
        (add_nonneg (add_nonneg ?_ ?_) ?_) ?_) ?_) ?_) ?_) ?_ <;>
        exact char_cost_opt_nonneg _
    · exact le_refl 0
  · exact le_refl 0

/-- The energy category sum is non-negative. -/
lemma calculate_energy_values_ap_nonneg (c : Character) :
    0 ≤ calculate_energy_values_ap c := by
  have hl : 0 ≤ calculate_lep_ap c := by
    rw [calculate_lep_ap]
    split
    · split
      · split
        · split
          · exact talent_value_to_ap_cost_nonneg _ 4 (by norm_num)
          · exact le_refl 0
        · exact le_refl 0
      · exact le_refl 0
    · exact le_refl 0
  have ha : 0 ≤ calculate_asp_ap c := by
    rw [calculate_asp_ap]
    split
    · split
      · split
        · apply add_nonneg
          · split
            · exact talent_value_to_ap_cost_nonneg _ 4 (by norm_num)
            · exact le_refl 0
          · split
            · rename_i hr
              omega
            · exact le_refl 0
        · exact le_refl 0
      · exact le_refl 0
    · exact le_refl 0
  have hk : 0 ≤ calculate_kap_ap c := by
    rw [calculate_kap_ap]
    split
    · split
      · split
        · apply add_nonneg
          · split
            · exact talent_value_to_ap_cost_nonneg _ 4 (by norm_num)
            · exact le_refl 0
          · split
            · rename_i hr
              omega
            · exact le_refl 0
        · exact le_refl 0
      · exact le_refl 0
    · exact le_refl 0
  rw [calculate_energy_values_ap]
  omega

/-- The magic-tricks category sum is non-negative. -/
lemma calculate_magic_tricks_ap_nonneg (c : Character) :
    0 ≤ calculate_magic_tricks_ap c := by
  rw [calculate_magic_tricks_ap]
  positivity

/-- The blessings category sum is non-negative. -/
lemma calculate_blessings_ap_nonneg (c : Character) :
    0 ≤ calculate_blessings_ap c := by
  rw [calculate_blessings_ap]
  positivity

/-- Non-negativity condition on one item's parsed AP data: the resolved
step and every parsed AP value are non-negative. -/
def itemNonneg (it : Item) : Bool :=
  decide (0 ≤ resolvedStep it) &&
    (match get_ap_value it.system with
     | none => true
     | some raw =>
       match parse_ap_value raw with
       | .singleValue v => decide (0 ≤ v)
       | .multipleValues l => l.all (fun x => decide (0 ≤ x))
       | .parseError => true)

/-- An item with non-negative parsed data has a non-negative cost. -/
lemma item_cost_nonneg (it : Item) (h : itemNonneg it = true) :
    0 ≤ calculate_item_ap_cost it := by
  rw [itemNonneg, Bool.and_eq_true, decide_eq_true_eq] at h
  obtain ⟨hstep, hrest⟩ := h
  cases hra : get_ap_value it.system with
  | none => simp [calculate_item_ap_cost, hra]
  | some raw =>
    cases hpv : parse_ap_value raw with
    | singleValue v =>
      have hceq : calculate_item_ap_cost it =
          calculate_single_value_cost v (resolvedStep it) := by
        simp [calculate_item_ap_cost, hra, hpv]
      simp [hra, hpv] at hrest
      rw [hceq, calculate_single_value_cost]
      exact mul_nonneg hrest hstep
    | multipleValues l =>
      have hceq : calculate_item_ap_cost it =
          match calculate_multiple_values_cost l (resolvedStep it) with
          | .ok w => w
          | .error _ => 0 := by
        simp [calculate_item_ap_cost, hra, hpv]
      simp [hra, hpv] at hrest
      rw [hceq]
      cases hm : calculate_multiple_values_cost l (resolvedStep it) with
      | error e => exact le_refl 0
      | ok w =>
        show 0 ≤ w
        rw [calculate_multiple_values_cost] at hm
        split at hm
        · simp at hm
        · split at hm
          · simp at hm
          · cases hm
            apply List.sum_nonneg
            intro x hx
            exact hrest x (List.take_subset _ _ hx)
    | parseError => simp [calculate_item_ap_cost, hra, hpv]

/-! ## Claim C8 -/

/-- C8 (amended): per-item AP costs are non-negative for items whose
parsed AP values and resolved step are non-negative, every category sum
is always non-negative, and under the per-item condition the priced
output, and hence the grand total, are non-negative. -/
theorem ap_costs_nonneg_spec (c : Character)
    (h : ∀ it ∈ get_ap_items c, itemNonneg it = true) :
    (∀ it ∈ get_ap_items c, 0 ≤ calculate_item_ap_cost it) ∧
    (∀ a ∈ apply_special_rules c, 0 ≤ a.ap_cost) ∧
    0 ≤ calculate_skills_ap c ∧ 0 ≤ calculate_combat_skills_ap c ∧
    0 ≤ calculate_spells_and_rituals_ap c ∧
    0 ≤ calculate_magic_tricks_ap c ∧
    0 ≤ calculate_liturgies_and_ceremonies_ap c ∧
    0 ≤ calculate_blessings_ap c ∧ 0 ≤ calculate_characteristics_ap c ∧
    0 ≤ calculate_energy_values_ap c ∧ 0 ≤ calculate_total_spent_ap c := by
  have hitem : ∀ it ∈ get_ap_items c, 0 ≤ calculate_item_ap_cost it :=
    fun it hit => item_cost_nonneg it (h it hit)
  have happ : ∀ a ∈ apply_special_rules c, 0 ≤ a.ap_cost := by
    intro a ha
    obtain ⟨it, hit, _, _, hc, _⟩ := mem_apply_special_rules_attrs c a ha
    rw [hc]
    exact hitem it hit
  have hitems : 0 ≤ items_total c := by
    rw [items_total]
    apply List.sum_nonneg
    intro x hx
    obtain ⟨a, ha, hax⟩ := List.mem_map.mp hx
    rw [← hax]
    exact happ a (List.mem_of_mem_filter ha)
  have h1 := calculate_skills_ap_nonneg c
  have h2 := calculate_combat_skills_ap_nonneg c
  have h3 := calculate_learned_abilities_ap_nonneg (get_spells_and_rituals c)
  have h4 := calculate_magic_tricks_ap_nonneg c
  have h5 := calculate_learned_abilities_ap_nonneg
    (get_liturgies_and_ceremonies c)
  have h6 := calculate_blessings_ap_nonneg c
  have h7 := calculate_characteristics_ap_nonneg c
  have h8 := calculate_energy_values_ap_nonneg c
  refine ⟨hitem, happ, h1, h2, h3, h4, h5, h6, h7, h8, ?_⟩
  rw [calculate_total_spent_ap]
  have h3' : 0 ≤ calculate_spells_and_rituals_ap c := h3
  have h5' : 0 ≤ calculate_liturgies_and_ceremonies_ap c := h5
  omega

/-- C8 counterexample: the claim as stated fails on a character whose
single disadvantage has AP value "-5"; its per-item cost and the grand
total are negative. -/
theorem ap_costs_nonneg_cex :
    calculate_total_spent_ap charNegItem < 0 ∧
    ∃ a ∈ apply_special_rules charNegItem, a.ap_cost < 0 := by decide

/-- C8 witness: the amended theorem instantiated on a well-behaved
character. -/
theorem ap_costs_nonneg_spec_witness :
    0 ≤ calculate_total_spent_ap charPlain :=
  (ap_costs_nonneg_spec charPlain (by decide)).2.2.2.2.2.2.2.2.2.2

/-! ## Category-map lemmas (claims C9 and C10) -/

/-- `mapAdd` with a positive value keeps all stored values positive. -/
lemma mapAdd_pos :
    ∀ (m : List (String × Int)) (k : String) (v : Int),
      (∀ p ∈ m, 0 < p.2) → 0 < v → ∀ p ∈ mapAdd m k v, 0 < p.2 := by
  intro m k v
  induction m with
  | nil =>
    intro _ hv p hp
    simp [mapAdd] at hp
    rw [hp]
    exact hv
  | cons q rest ih =>
    intro hm hv p hp
    obtain ⟨k', v'⟩ := q
    by_cases hk : k' = k
    · simp only [mapAdd, if_pos hk] at hp
      rcases List.mem_cons.mp hp with hp | hp
      · rw [hp]
        have h1 : 0 < v' := hm (k', v') (List.mem_cons_self _ _)
        simp only
        omega
      · exact hm p (List.mem_cons_of_mem _ hp)
    · simp only [mapAdd, if_neg hk] at hp
      rcases List.mem_cons.mp hp with hp | hp
      · rw [hp]
        exact hm (k', v') (List.mem_cons_self _ _)
      · exact ih (fun q hq => hm q (List.mem_cons_of_mem _ hq)) hv p hp

/-- `mapInsert` with a positive value keeps all stored values positive. -/
lemma mapInsert_pos :
    ∀ (m : List (String × Int)) (k : String) (v : Int),
      (∀ p ∈ m, 0 < p.2) → 0 < v → ∀ p ∈ mapInsert m k v, 0 < p.2 := by
  intro m k v
  induction m with
  | nil =>
    intro _ hv p hp
    simp [mapInsert] at hp
    rw [hp]
    exact hv
  | cons q rest ih =>
    intro hm hv p hp
    obtain ⟨k', v'⟩ := q
    by_cases hk : k' = k
    · simp only [mapInsert, if_pos hk] at hp
      rcases List.mem_cons.mp hp with hp | hp
      · rw [hp]
        exact hv
      · exact hm p (List.mem_cons_of_mem _ hp)
    · simp only [mapInsert, if_neg hk] at hp
      rcases List.mem_cons.mp hp with hp | hp
      · rw [hp]
        exact hm (k', v') (List.mem_cons_self _ _)
      · exact ih (fun q hq => hm q (List.mem_cons_of_mem _ hq)) hv p hp

/-- `condInsert` keeps all stored values positive. -/
lemma condInsert_pos (m : List (String × Int)) (k : String) (v : Int)
    (hm : ∀ p ∈ m, 0 < p.2) : ∀ p ∈ condInsert m k v, 0 < p.2 := by
  rw [condInsert]
  split
  · exact mapInsert_pos m k v hm (by omega)
  · exact hm

/-- The per-item category fold keeps all stored values positive when
item costs are non-negative. -/
lemma itemCategoryFold_pos (items : List ApItem)
    (h : ∀ a ∈ items, 0 ≤ a.ap_cost) :
    ∀ p ∈ itemCategoryFold items, 0 < p.2 := by
  rw [itemCategoryFold]
  have main : ∀ (l : List ApItem) (m : List (String × Int)),
      (∀ a ∈ l, 0 ≤ a.ap_cost) → (∀ p ∈ m, 0 < p.2) →
      ∀ p ∈ l.foldl (fun m a =>
        if a.ap_cost ≠ 0 then mapAdd m a.item_type a.ap_cost else m) m,
        0 < p.2 := by
    intro l
    induction l with
    | nil => intro m _ hm; simpa using hm
    | cons a rest ih =>
      intro m hl hm
      rw [List.foldl_cons]
      by_cases hc : a.ap_cost ≠ 0
      · rw [if_pos hc]
        refine ih _ (fun b hb => hl b (List.mem_cons_of_mem _ hb)) ?_
        have h0 : 0 ≤ a.ap_cost := hl a (List.mem_cons_self _ _)
        exact mapAdd_pos m a.item_type a.ap_cost hm (by omega)
      · rw [if_neg hc]
        exact ih _ (fun b hb => hl b (List.mem_cons_of_mem _ hb)) hm
  exact main items [] h (by simp)

/-! ## Claim C9 -/

/-- C9 (amended): when every priced item's cost is non-negative, every
value stored in the category map is non-zero (the claim as stated fails
because same-type item costs of mixed sign can cancel inside one entry). -/
theorem category_values_nonzero_spec (c : Character)
    (h : ∀ a ∈ apply_special_rules c, 0 ≤ a.ap_cost) :
    ∀ p ∈ get_ap_by_category c, p.2 ≠ 0 := by
  intro p hp
  have hfold : ∀ q ∈ itemCategoryFold
      ((apply_special_rules c).filter (fun a => !a.was_excluded)), 0 < q.2 :=
    itemCategoryFold_pos _ (fun a ha => h a (List.mem_of_mem_filter ha))
  have hfinal : ∀ q ∈ get_ap_by_category c, 0 < q.2 := by
    rw [get_ap_by_category]
    exact condInsert_pos _ _ _ (condInsert_pos _ _ _ (condInsert_pos _ _ _
      (condInsert_pos _ _ _ (condInsert_pos _ _ _ (condInsert_pos _ _ _
        (condInsert_pos _ _ _ (condInsert_pos _ _ _ hfold)))))))
  exact (hfinal p hp).ne'

/-- C9 counterexample: on a character with same-type costs +5 and −5 the
category map stores the value 0. -/
theorem category_values_nonzero_cex :
    ∃ p ∈ get_ap_by_category charCancel, p.2 = 0 := by decide

/-- C9 witness: the amended theorem instantiated on a well-behaved
character and the concrete map entry ("advantage", 15). -/
theorem category_values_nonzero_spec_witness :
    (("advantage", (15 : Int)) : String × Int).2 ≠ 0 :=
  category_values_nonzero_spec charPlain (by decide) ("advantage", 15)
    (by decide)

/-- The reserved category labels of `get_ap_by_category`. -/
def reservedLabels : List String :=
  ["Skills", "Combat Skills", "Spells/Rituals", "Magic Tricks",
    "Liturgies/Ceremonies", "Blessings", "Energies (LeP/AsP/KaP)",
    "Characteristics"]

/-- Sum of a consed category map. -/
lemma mapSum_cons (p : String × Int) (m : List (String × Int)) :
    mapSum (p :: m) = p.2 + mapSum m := by
  simp [mapSum]

/-- Sum of appended category maps. -/
lemma mapSum_append (m m' : List (String × Int)) :
    mapSum (m ++ m') = mapSum m + mapSum m' := by
  simp [mapSum]

/-- `mapAdd` adds its value to the map sum. -/
lemma mapSum_mapAdd :
    ∀ (m : List (String × Int)) (k : String) (v : Int),
      mapSum (mapAdd m k v) = mapSum m + v := by
  intro m k v
  induction m with
  | nil => simp [mapAdd, mapSum]
  | cons q rest ih =>
    obtain ⟨k', v'⟩ := q
    by_cases hk : k' = k
    · simp only [mapAdd, if_pos hk]
      rw [mapSum_cons, mapSum_cons]
      simp only
      omega
    · simp only [mapAdd, if_neg hk]
      rw [mapSum_cons, ih, mapSum_cons]
      omega

/-- Keys after `mapAdd` come from the old keys or are the new key. -/
lemma mapKeys_mapAdd_sub :
    ∀ (m : List (String × Int)) (k : String) (v : Int),
      ∀ k' ∈ mapKeys (mapAdd m k v), k' ∈ mapKeys m ∨ k' = k := by
  intro m k v
  induction m with
  | nil =>
    intro k' h
    simp [mapAdd, mapKeys] at h
    exact Or.inr h
  | cons q rest ih =>
    obtain ⟨k0, v0⟩ := q
    intro k' h
    by_cases hk : k0 = k
    · simp only [mapAdd, if_pos hk, mapKeys, List.map_cons,
        List.mem_cons] at h
      rcases h with h | h
      · exact Or.inl (by simp [mapKeys, h])
      · exact Or.inl (by simp [mapKeys]; exact Or.inr (by simpa [mapKeys] using h))
    · simp only [mapAdd, if_neg hk, mapKeys, List.map_cons,
        List.mem_cons] at h
      rcases h with h | h
      · exact Or.inl (by simp [mapKeys, h])
      · rcases ih k' (by simpa [mapKeys] using h) with h' | h'
        · exact Or.inl (by simp [mapKeys]; exact Or.inr (by simpa [mapKeys] using h'))
        · exact Or.inr h'

/-- Inserting a fresh key appends the binding. -/
lemma mapInsert_fresh :
    ∀ (m : List (String × Int)) (k : String) (v : Int),
      k ∉ mapKeys m → mapInsert m k v = m ++ [(k, v)] := by
  intro m k v
  induction m with
  | nil => intro _; rfl
  | cons q rest ih =>
    obtain ⟨k0, v0⟩ := q
    intro hk
    simp only [mapKeys, List.map_cons, List.mem_cons] at hk
    push_neg at hk
    rw [mapInsert, if_neg (fun h => hk.1 h.symm), ih (by simpa [mapKeys] using hk.2)]
    rfl

/-- Keys after `mapInsert` come from the old keys or are the new key. -/
lemma mapKeys_mapInsert_sub :
    ∀ (m : List (String × Int)) (k : String) (v : Int),
      ∀ k' ∈ mapKeys (mapInsert m k v), k' ∈ mapKeys m ∨ k' = k := by
  intro m k v
  induction m with
  | nil =>
    intro k' h
    simp [mapInsert, mapKeys] at h
    exact Or.inr h
  | cons q rest ih =>
    obtain ⟨k0, v0⟩ := q
    intro k' h
    by_cases hk : k0 = k
    · simp only [mapInsert, if_pos hk, mapKeys, List.map_cons,
        List.mem_cons] at h
      rcases h with h | h
      · exact Or.inl (by simp [mapKeys, h])
      · exact Or.inl (by simp [mapKeys]; exact Or.inr (by simpa [mapKeys] using h))
    · simp only [mapInsert, if_neg hk, mapKeys, List.map_cons,
        List.mem_cons] at h
      rcases h with h | h
      · exact Or.inl (by simp [mapKeys, h])
      · rcases ih k' (by simpa [mapKeys] using h) with h' | h'
        · exact Or.inl (by simp [mapKeys]; exact Or.inr (by simpa [mapKeys] using h'))
        · exact Or.inr h'

/-- A guarded insert of a fresh key adds its (non-negative) value to the
map sum. -/
lemma mapSum_condInsert_fresh {m : List (String × Int)} {k : String}
    {v : Int} (hfresh : k ∉ mapKeys m) (hv : 0 ≤ v) :
    mapSum (condInsert m k v) = mapSum m + v := by
  rw [condInsert]
  split
  · rw [mapInsert_fresh m k v hfresh, mapSum_append, mapSum_cons]
    simp [mapSum]
  · rename_i hneg
    have hv0 : v = 0 := by omega
    rw [hv0]
    omega

/-- One tracked step of the category-map insertion chain. -/
lemma condInsert_tracked (T S : List String) (m : List (String × Int))
    (k : String) (v : Int)
    (hkeys : ∀ k' ∈ mapKeys m, k' ∈ T ∨ k' ∈ S)
    (hkT : k ∉ T) (hkS : k ∉ S) (hv : 0 ≤ v) :
    mapSum (condInsert m k v) = mapSum m + v ∧
    (∀ k' ∈ mapKeys (condInsert m k v), k' ∈ T ∨ k' ∈ k :: S) := by
  have hfresh : k ∉ mapKeys m := by
    intro hk
    rcases hkeys k hk with h | h
    · exact hkT h
    · exact hkS h
  refine ⟨mapSum_condInsert_fresh hfresh hv, ?_⟩
  intro k' hk'
  rw [condInsert] at hk'
  split at hk'
  · rcases mapKeys_mapInsert_sub m k v k' hk' with h | h
    · rcases hkeys k' h with h' | h'
      · exact Or.inl h'
      · exact Or.inr (List.mem_cons_of_mem _ h')
    · exact Or.inr (h ▸ List.mem_cons_self _ _)
  · rcases hkeys k' hk' with h' | h'
    · exact Or.inl h'
    · exact Or.inr (List.mem_cons_of_mem _ h')

/-- The per-item fold sums all item costs. -/
lemma mapSum_itemFold :
    ∀ (l : List ApItem) (m : List (String × Int)),
      mapSum (l.foldl (fun m a =>
        if a.ap_cost ≠ 0 then mapAdd m a.item_type a.ap_cost else m) m) =
      mapSum m + (l.map (fun a => a.ap_cost)).sum := by
  intro l
  induction l with
  | nil => intro m; simp
  | cons a rest ih =>
    intro m
    rw [List.foldl_cons]
    by_cases hc : a.ap_cost ≠ 0
    · rw [if_pos hc, ih, mapSum_mapAdd, List.map_cons, List.sum_cons]
      omega
    · push_neg at hc
      rw [if_neg (by simp [hc]), ih, List.map_cons, List.sum_cons, hc]
      omega

/-- Keys of the per-item fold come from the seed map or the item types. -/
lemma mapKeys_itemFold_sub :
    ∀ (l : List ApItem) (m : List (String × Int)),
      ∀ k ∈ mapKeys (l.foldl (fun m a =>
        if a.ap_cost ≠ 0 then mapAdd m a.item_type a.ap_cost else m) m),
        k ∈ mapKeys m ∨ k ∈ l.map (fun a => a.item_type) := by
  intro l
  induction l with
  | nil =>
    intro m k hk
    exact Or.inl hk
  | cons a rest ih =>
    intro m k hk
    rw [List.foldl_cons] at hk
    by_cases hc : a.ap_cost ≠ 0
    · rw [if_pos hc] at hk
      rcases ih _ k hk with h | h
      · rcases mapKeys_mapAdd_sub m a.item_type a.ap_cost k h with h' | h'
        · exact Or.inl h'
        · exact Or.inr (by simp [h'])
      · exact Or.inr (by simp [h])
    · rw [if_neg hc] at hk
      rcases ih _ k hk with h | h
      · exact Or.inl h
      · exact Or.inr (by simp [h])

/-- Intermediate stages of the category-map construction. -/
def catM0 (c : Character) : List (String × Int) :=
  itemCategoryFold ((apply_special_rules c).filter (fun a => !a.was_excluded))

/-- Stage after inserting the skills entry. -/
def catM1 (c : Character) : List (String × Int) :=
  condInsert (catM0 c) "Skills" (calculate_skills_ap c)

/-- Stage after inserting the combat-skills entry. -/
def catM2 (c : Character) : List (String × Int) :=
  condInsert (catM1 c) "Combat Skills" (calculate_combat_skills_ap c)

/-- Stage after inserting the spells/rituals entry. -/
def catM3 (c : Character) : List (String × Int) :=
  condInsert (catM2 c) "Spells/Rituals" (calculate_spells_and_rituals_ap c)

/-- Stage after inserting the magic-tricks entry. -/
def catM4 (c : Character) : List (String × Int) :=
  condInsert (catM3 c) "Magic Tricks" (calculate_magic_tricks_ap c)

/-- Stage after inserting the liturgies/ceremonies entry. -/
def catM5 (c : Character) : List (String × Int) :=
  condInsert (catM4 c) "Liturgies/Ceremonies"
    (calculate_liturgies_and_ceremonies_ap c)

/-- Stage after inserting the blessings entry. -/
def catM6 (c : Character) : List (String × Int) :=
  condInsert (catM5 c) "Blessings" (calculate_blessings_ap c)

/-- Stage after inserting the energies entry. -/
def catM7 (c : Character) : List (String × Int) :=
  condInsert (catM6 c) "Energies (LeP/AsP/KaP)" (calculate_energy_values_ap c)

/-- The category map is the last stage of the insertion chain. -/
lemma get_ap_by_category_eq (c : Character) :
    get_ap_by_category c =
      condInsert (catM7 c) "Characteristics"
        (calculate_characteristics_ap c) := rfl

/-- Item types present among priced, non-excluded output items. -/
def outTypes (c : Character) : List String :=
  ((apply_special_rules c).filter (fun a => !a.was_excluded)).map
    (fun a => a.item_type)

/-! ## Claim C10 -/

/-- C10 (amended): for every character none of whose AP-bearing items
has an `item_type` equal to a reserved category label, the sum of all
values in the category map equals the grand total, and every named
category sum is non-negative (the claim as stated fails because a
colliding `item_type` entry is overwritten by the named-category
insert). -/
theorem category_map_total_spec (c : Character)
    (h : ∀ it ∈ get_ap_items c, it.item_type ∉ reservedLabels) :
    mapSum (get_ap_by_category c) = calculate_total_spent_ap c ∧
    0 ≤ calculate_skills_ap c ∧ 0 ≤ calculate_combat_skills_ap c ∧
    0 ≤ calculate_spells_and_rituals_ap c ∧
    0 ≤ calculate_magic_tricks_ap c ∧
    0 ≤ calculate_liturgies_and_ceremonies_ap c ∧
    0 ≤ calculate_blessings_ap c ∧ 0 ≤ calculate_characteristics_ap c ∧
    0 ≤ calculate_energy_values_ap c := by
  have hT : ∀ k ∈ reservedLabels, k ∉ outTypes c := by
    intro k hk hmem
    obtain ⟨a, ha, hak⟩ := List.mem_map.mp hmem
    obtain ⟨it, hit, _, _, _, ht⟩ :=
      mem_apply_special_rules_attrs c a (List.mem_of_mem_filter ha)
    exact h it hit (by rw [← ht, hak]; exact hk)
  have hk0 : ∀ k ∈ mapKeys (catM0 c), k ∈ outTypes c ∨ k ∈ ([] : List String) := by
    intro k hk
    rcases mapKeys_itemFold_sub
      ((apply_special_rules c).filter (fun a => !a.was_excluded)) [] k hk
      with h' | h'
    · exact absurd h' (by simp [mapKeys])
    · exact Or.inl h'
  have hsum0 : mapSum (catM0 c) = items_total c := by
    have hfold := mapSum_itemFold
      ((apply_special_rules c).filter (fun a => !a.was_excluded)) []
    simp only [catM0, itemCategoryFold, items_total]
    rw [hfold]
    simp [mapSum]
  have hn1 := calculate_skills_ap_nonneg c
  have hn2 := calculate_combat_skills_ap_nonneg c
  have hn3 : 0 ≤ calculate_spells_and_rituals_ap c :=
    calculate_learned_abilities_ap_nonneg (get_spells_and_rituals c)
  have hn4 := calculate_magic_tricks_ap_nonneg c
  have hn5 : 0 ≤ calculate_liturgies_and_ceremonies_ap c :=
    calculate_learned_abilities_ap_nonneg (get_liturgies_and_ceremonies c)
  have hn6 := calculate_blessings_ap_nonneg c
  have hn7 := calculate_characteristics_ap_nonneg c
  have hn8 := calculate_energy_values_ap_nonneg c
  have t1 := condInsert_tracked (outTypes c) [] (catM0 c) "Skills"
    (calculate_skills_ap c) hk0 (hT _ (by decide)) (by simp) hn1
  have e1 : mapSum (catM1 c) = mapSum (catM0 c) + calculate_skills_ap c := t1.1
  have k1 : ∀ k ∈ mapKeys (catM1 c), k ∈ outTypes c ∨ k ∈ ["Skills"] := t1.2
  have t2 := condInsert_tracked (outTypes c) ["Skills"] (catM1 c)
    "Combat Skills" (calculate_combat_skills_ap c) k1 (hT _ (by decide))
    (by decide) hn2
  have e2 : mapSum (catM2 c) = mapSum (catM1 c) +
      calculate_combat_skills_ap c := t2.1
  have k2 : ∀ k ∈ mapKeys (catM2 c),
      k ∈ outTypes c ∨ k ∈ ["Combat Skills", "Skills"] := t2.2
  have t3 := condInsert_tracked (outTypes c) ["Combat Skills", "Skills"]
    (catM2 c) "Spells/Rituals" (calculate_spells_and_rituals_ap c) k2
    (hT _ (by decide)) (by decide) hn3
  have e3 : mapSum (catM3 c) = mapSum (catM2 c) +
      calculate_spells_and_rituals_ap c := t3.1
  have k3 : ∀ k ∈ mapKeys (catM3 c),
      k ∈ outTypes c ∨ k ∈ ["Spells/Rituals", "Combat Skills", "Skills"] := t3.2
  have t4 := condInsert_tracked (outTypes c)
    ["Spells/Rituals", "Combat Skills", "Skills"] (catM3 c) "Magic Tricks"
    (calculate_magic_tricks_ap c) k3 (hT _ (by decide)) (by decide) hn4
  have e4 : mapSum (catM4 c) = mapSum (catM3 c) +
      calculate_magic_tricks_ap c := t4.1
  have k4 : ∀ k ∈ mapKeys (catM4 c), k ∈ outTypes c ∨
      k ∈ ["Magic Tricks", "Spells/Rituals", "Combat Skills", "Skills"] := t4.2
  have t5 := condInsert_tracked (outTypes c)
    ["Magic Tricks", "Spells/Rituals", "Combat Skills", "Skills"] (catM4 c)
    "Liturgies/Ceremonies" (calculate_liturgies_and_ceremonies_ap c) k4
    (hT _ (by decide)) (by decide) hn5
  have e5 : mapSum (catM5 c) = mapSum (catM4 c) +
      calculate_liturgies_and_ceremonies_ap c := t5.1
  have k5 : ∀ k ∈ mapKeys (catM5 c), k ∈ outTypes c ∨
      k ∈ ["Liturgies/Ceremonies", "Magic Tricks", "Spells/Rituals",
        "Combat Skills", "Skills"] := t5.2
  have t6 := condInsert_tracked (outTypes c)
    ["Liturgies/Ceremonies", "Magic Tricks", "Spells/Rituals",
      "Combat Skills", "Skills"] (catM5 c) "Blessings"
    (calculate_blessings_ap c) k5 (hT _ (by decide)) (by decide) hn6
  have e6 : mapSum (catM6 c) = mapSum (catM5 c) +
      calculate_blessings_ap c := t6.1
  have k6 : ∀ k ∈ mapKeys (catM6 c), k ∈ outTypes c ∨
      k ∈ ["Blessings", "Liturgies/Ceremonies", "Magic Tricks",
        "Spells/Rituals", "Combat Skills", "Skills"] := t6.2
  have t7 := condInsert_tracked (outTypes c)
    ["Blessings", "Liturgies/Ceremonies", "Magic Tricks", "Spells/Rituals",
      "Combat Skills", "Skills"] (catM6 c) "Energies (LeP/AsP/KaP)"
    (calculate_energy_values_ap c) k6 (hT _ (by decide)) (by decide) hn8
  have e7 : mapSum (catM7 c) = mapSum (catM6 c) +
      calculate_energy_values_ap c := t7.1
  have k7 : ∀ k ∈ mapKeys (catM7 c), k ∈ outTypes c ∨
      k ∈ ["Energies (LeP/AsP/KaP)", "Blessings", "Liturgies/Ceremonies",
        "Magic Tricks", "Spells/Rituals", "Combat Skills", "Skills"] := t7.2
  have t8 := condInsert_tracked (outTypes c)
    ["Energies (LeP/AsP/KaP)", "Blessings", "Liturgies/Ceremonies",
      "Magic Tricks", "Spells/Rituals", "Combat Skills", "Skills"] (catM7 c)
    "Characteristics" (calculate_characteristics_ap c) k7 (hT _ (by decide))
    (by decide) hn7
  have e8 : mapSum (get_ap_by_category c) = mapSum (catM7 c) +
      calculate_characteristics_ap c := t8.1
  refine ⟨?_, hn1, hn2, hn3, hn4, hn5, hn6, hn7, hn8⟩
  rw [e8, e7, e6, e5, e4, e3, e2, e1, hsum0, calculate_total_spent_ap]
  omega

/-- C10 counterexample: on a character owning an item of type "Skills"
and a skill, the map sum differs from the grand total because the
reserved-label insert overwrites the item entry. -/
theorem category_map_total_cex :
    mapSum (get_ap_by_category charCollide) ≠
      calculate_total_spent_ap charCollide := by decide

/-- C10 witness: the amended theorem instantiated on a well-behaved
character. -/
theorem category_map_total_spec_witness :
    mapSum (get_ap_by_category charPlain) =
      calculate_total_spent_ap charPlain :=
  (category_map_total_spec charPlain (by decide)).1

end DSA5
